import Mathlib

/-!
Verification of the nova versioned-object framework.

This file gives a shallow embedding, in Lean, of the object framework found in
`nova/object/base.py`, `nova/objects/fields.py` and `nova/object/instance.py`:

* a dynamic value universe `PyVal` standing for the Python values the framework
  moves around (ints, strings, booleans, datetimes, IP addresses, dicts);
* the version negotiator `check_object_version` and the registry resolution
  `class_from_name`;
* the object base: generated property setters (`obj_set`, from
  `make_class_properties`), dirty tracking (`reset_changes`), hydration
  (`from_primitive`) and dehydration (`to_primitive`);
* the field-type system of `nova/objects/fields.py` (`Field`, `enforce_nullable`
  and the built-in field classes);
* the remote-indirection wrapper `magic`;
* the concrete `Instance` object type of `nova/object/instance.py` with its
  per-field serializers (`dt_serializer` / `dt_deserializer`).

Library code that the repository imports but does not carry in its tree
(`timeutils.isotime` / `timeutils.parse_isotime` from openstack common, the
`iso8601` parser and `netaddr.IPAddress`) is modelled explicitly; each such
definition carries a `Modelled from the spec` note saying what it stands for.
-/

namespace Nova

/-- A `datetime.datetime` value: calendar fields, sub-second microseconds and
an optional timezone given as an offset in minutes (`Option.none` is a naive
datetime, `some 0` is UTC). -/
structure PyDateTime where
  year : Nat
  month : Nat
  day : Nat
  hour : Nat
  minute : Nat
  second : Nat
  microsecond : Nat
  tz : Option Int
deriving DecidableEq

/-- A `netaddr.IPAddress` value: a version-4 address is four octets, a
version-6 address is its eight 16-bit hextet groups. -/
inductive IPAddr where
  | v4 (o1 o2 o3 o4 : Nat)
  | v6 (groups : List Nat)
deriving DecidableEq

/-- The `version` attribute of a `netaddr.IPAddress`. -/
def IPAddr.version : IPAddr → Nat
  | .v4 _ _ _ _ => 4
  | .v6 _ => 6

/-- The dynamic universe of Python values handled by the object framework. -/
inductive PyVal where
  | none
  | int (n : Int)
  | str (s : String)
  | bool (b : Bool)
  | dt (d : PyDateTime)
  | ip (a : IPAddr)
  | dict (entries : List (String × PyVal))
  | list (elems : List PyVal)

/-- The exceptions of the framework (`nova/object/base.py` error classes,
plus `ValueError`/`TypeError` raised by coercion functions).
`fieldRequired attr` is the `ValueError("Field `attr' cannot be None")`
raised by `enforce_nullable`; `invalidVersionString` is the plain
`Exception('Invalid version string')` of `check_object_version` (which is NOT
an `IncompatibleObjectVersion`). -/
inductive NovaErr where
  | unsupportedObject (objtype : String)
  | orphanedObject (method : String) (objtype : String)
  | incompatibleVersion (objname : String) (objver : String)
  | incompatibleMajor (client : String) (server : String)
  | incompatibleMinor (client : Int) (server : Int)
  | invalidVersionString
  | fieldRequired (attr : String)
  | valueError (msg : String)
  | typeError (msg : String)
deriving DecidableEq

/-- `except IncompatibleObjectVersion` in `class_from_name` catches the base
class and both subclasses (major/minor); the generic
`Exception('Invalid version string')` is not caught. -/
def NovaErr.isIncompatibleVersion : NovaErr → Bool
  | .incompatibleVersion _ _ => true
  | .incompatibleMajor _ _ => true
  | .incompatibleMinor _ _ => true
  | _ => false

/-- Execution contexts are opaque to the framework; model them by ids. -/
abbrev Ctx := Nat

/-! ### Small character/list utilities used by the library models -/

/-- Decimal digit value of a character, if it is a digit. -/
def digit? (c : Char) : Option Nat :=
  if '0' ≤ c ∧ c ≤ '9' then some (c.toNat - '0'.toNat) else Option.none

/-- Read a nonempty all-digit character list as a decimal number
(accumulator form). -/
def readDigitsAux : List Char → Nat → Option Nat
  | [], acc => some acc
  | c :: r, acc =>
    match digit? c with
    | some d => readDigitsAux r (10 * acc + d)
    | Option.none => Option.none

/-- Read a nonempty all-digit character list as a decimal number. -/
def readDigits : List Char → Option Nat
  | [] => Option.none
  | c :: r => readDigitsAux (c :: r) 0

/-- Python `int(s)` on a string: an optional minus sign followed by decimal
digits (a faithful model on the inputs the repository feeds it). -/
def pyToInt (s : String) : Option Int :=
  match s.data with
  | '-' :: r => (readDigits r).map (fun n => -(n : Int))
  | cs => (readDigits cs).map (fun n => (n : Int))

/-- Split a character list on `'.'`, like Python `str.split('.')`. -/
def splitDotChars : List Char → List (List Char)
  | [] => [[]]
  | c :: r =>
    if c = '.' then [] :: splitDotChars r
    else
      match splitDotChars r with
      | [] => [[c]]
      | g :: gs => (c :: g) :: gs

/-- Python `s.split('.')`. -/
def splitVersion (s : String) : List String :=
  (splitDotChars s.data).map (fun l => String.mk l)

/-- Association-list lookup (first binding wins, like a Python dict read). -/
def alookup {β : Type} : List (String × β) → String → Option β
  | [], _ => Option.none
  | (k, v) :: rest, n => if k = n then some v else alookup rest n

/-- Association-list update (in-place like a Python dict write: an existing
key keeps its position, a new key is appended). -/
def aset {β : Type} : List (String × β) → String → β → List (String × β)
  | [], n, v => [(n, v)]
  | (k, w) :: rest, n, v =>
    if k = n then (k, v) :: rest else (k, w) :: aset rest n v

/-- First-occurrence deduplication: the effect of Python `set(...)` on a list,
read as a nodup list. -/
def dedupKeep : List String → List String
  | [] => []
  | x :: r => x :: (dedupKeep r).filter (fun y => decide (y ≠ x))

/-- `set.add`: append the name if it is not already tracked. -/
def addChanged (n : String) (l : List String) : List String :=
  if n ∈ l then l else l ++ [n]

/-- Whether an `Except` result is a success. -/
def isOkE {ε α : Type} : Except ε α → Bool
  | .ok _ => true
  | .error _ => false

/-! ### Model of `timeutils.isotime` / `timeutils.parse_isotime`

The repository imports these from `nova.openstack.common.timeutils`, which is
not part of the source tree. -/

/-- Two-digit zero-padded decimal rendering (`strftime` `%m`, `%d`, …). -/
def pad2 (n : Nat) : List Char :=
  [Nat.digitChar (n / 10 % 10), Nat.digitChar (n % 10)]

/-- Four-digit zero-padded decimal rendering (`strftime` `%Y`). -/
def pad4 (n : Nat) : List Char :=
  [Nat.digitChar (n / 1000 % 10), Nat.digitChar (n / 100 % 10),
   Nat.digitChar (n / 10 % 10), Nat.digitChar (n % 10)]

/-- Timezone designator appended by `isotime`: naive datetimes default to
`'UTC'` and UTC renders as `'Z'`; any other fixed offset renders as
`±HH:MM` (the `tzname` of an `iso8601` fixed-offset timezone). -/
def tzChars : Option Int → List Char
  | Option.none => ['Z']
  | some off =>
    if off = 0 then ['Z']
    else
      (if off < 0 then '-' else '+') ::
        (pad2 (off.natAbs / 60) ++ ':' :: pad2 (off.natAbs % 60))

/-- Modelled from the spec: `timeutils.isotime` (openstack common, not under
`src/`) formats a datetime as `%Y-%m-%dT%H:%M:%S` plus a timezone designator.
The format string carries no sub-second field, so microseconds are dropped —
the repository's own test suite notes "isotime doesn't have microseconds and
is always UTC". -/
def isotimeChars (d : PyDateTime) : List Char :=
  pad4 d.year ++ '-' :: (pad2 d.month ++ '-' :: (pad2 d.day ++
    'T' :: (pad2 d.hour ++ ':' :: (pad2 d.minute ++ ':' :: (pad2 d.second ++
      tzChars d.tz)))))

/-- `timeutils.isotime` as a string. -/
def isotime (d : PyDateTime) : String :=
  String.mk (isotimeChars d)

/-- Read exactly two digit characters. -/
def read2 : List Char → Option (Nat × List Char)
  | a :: b :: r =>
    match digit? a, digit? b with
    | some x, some y => some (10 * x + y, r)
    | _, _ => Option.none
  | _ => Option.none

/-- Read exactly four digit characters. -/
def read4 : List Char → Option (Nat × List Char)
  | a :: b :: c :: e :: r =>
    match digit? a, digit? b, digit? c, digit? e with
    | some x, some y, some z, some w =>
      some (1000 * x + 100 * y + 10 * z + w, r)
    | _, _, _, _ => Option.none
  | _ => Option.none

/-- Expect one specific character. -/
def expectChar (c : Char) : List Char → Option (List Char)
  | x :: r => if x = c then some r else Option.none
  | [] => Option.none

/-- Consume a leading run of digits, returning them and the rest. -/
def takeDigits : List Char → List Char × List Char
  | [] => ([], [])
  | c :: r =>
    if (digit? c).isSome then
      let (ds, rest) := takeDigits r
      (c :: ds, rest)
    else ([], c :: r)

/-- Microseconds from an ISO-8601 fractional-seconds digit string:
`iso8601` scales `0.<fraction>` to microseconds. -/
def fracToMicro (ds : List Char) : Nat :=
  match readDigits (ds.take 6) with
  | some n => n * 10 ^ (6 - min ds.length 6)
  | Option.none => 0

/-- Timezone designator parsing: `Z` is UTC, `±HH:MM` a fixed offset, and a
missing designator defaults to UTC (`iso8601.parse_date` default timezone). -/
def parseTz : List Char → Option (Option Int)
  | [] => some (some 0)
  | 'Z' :: [] => some (some 0)
  | c :: r =>
    if c = '+' ∨ c = '-' then
      match read2 r with
      | some (h, r1) =>
        match expectChar ':' r1 with
        | some r2 =>
          match read2 r2 with
          | some (m, []) =>
            some (some (if c = '-' then -((h * 60 + m : Nat) : Int)
                        else ((h * 60 + m : Nat) : Int)))
          | _ => Option.none
        | Option.none => Option.none
      | Option.none => Option.none
    else Option.none

/-- Optional fractional seconds digits followed by the timezone designator. -/
def parseFracTz (r11 : List Char) : Option (Nat × Option Int) :=
  let (micro, r12) :=
    match r11 with
    | '.' :: rest =>
      let (ds, r') := takeDigits rest
      (fracToMicro ds, r')
    | _ => (0, r11)
  (parseTz r12).map (fun tz => (micro, tz))

/-- Core of `parse_isotime`: parse `YYYY-MM-DDTHH:MM:SS[.ffffff][tz]` and
validate the ranges that `datetime.datetime(...)` would enforce. -/
def parseISOChars (cs : List Char) : Option PyDateTime :=
  match read4 cs with
  | Option.none => Option.none
  | some (y, r1) =>
    match expectChar '-' r1 with
    | Option.none => Option.none
    | some r2 =>
      match read2 r2 with
      | Option.none => Option.none
      | some (mo, r3) =>
        match expectChar '-' r3 with
        | Option.none => Option.none
        | some r4 =>
          match read2 r4 with
          | Option.none => Option.none
          | some (da, r5) =>
            match expectChar 'T' r5 with
            | Option.none => Option.none
            | some r6 =>
              match read2 r6 with
              | Option.none => Option.none
              | some (h, r7) =>
                match expectChar ':' r7 with
                | Option.none => Option.none
                | some r8 =>
                  match read2 r8 with
                  | Option.none => Option.none
                  | some (mi, r9) =>
                    match expectChar ':' r9 with
                    | Option.none => Option.none
                    | some r10 =>
                      match read2 r10 with
                      | Option.none => Option.none
                      | some (s, r11) =>
                        match parseFracTz r11 with
                        | Option.none => Option.none
                        | some (micro, tz) =>
                          if 1 ≤ y ∧ 1 ≤ mo ∧ mo ≤ 12 ∧ 1 ≤ da ∧ da ≤ 31 ∧
                              h ≤ 23 ∧ mi ≤ 59 ∧ s ≤ 59 then
                            some ⟨y, mo, da, h, mi, s, micro, tz⟩
                          else Option.none

/-- Modelled from the spec: `timeutils.parse_isotime` (openstack common, not
under `src/`) parses an ISO-8601 timestamp via `iso8601.parse_date`, raising
on malformed input and defaulting the timezone to UTC. -/
def parse_isotime (s : String) : Except NovaErr PyDateTime :=
  match parseISOChars s.data with
  | some d => .ok d
  | Option.none => .error (.valueError "Unable to parse date string")

/-! ### Model of `netaddr.IPAddress` -/

/-- Variable-width decimal rendering of an IPv4 octet (values `0‥255`). -/
def octChars (n : Nat) : List Char :=
  if n < 10 then [Nat.digitChar n]
  else if n < 100 then [Nat.digitChar (n / 10), Nat.digitChar (n % 10)]
  else [Nat.digitChar (n / 100), Nat.digitChar (n / 10 % 10),
        Nat.digitChar (n % 10)]

/-- Hexadecimal digit value of a character (both letter cases accepted on
parse). -/
def hexDigit? (c : Char) : Option Nat :=
  if '0' ≤ c ∧ c ≤ '9' then some (c.toNat - '0'.toNat)
  else if 'a' ≤ c ∧ c ≤ 'f' then some (c.toNat - 'a'.toNat + 10)
  else if 'A' ≤ c ∧ c ≤ 'F' then some (c.toNat - 'A'.toNat + 10)
  else Option.none

/-- Lowercase hexadecimal rendering of a 16-bit hextet group, leading zeros
suppressed (the form `str()` of a version-6 address emits). -/
def hexChars (n : Nat) : List Char :=
  if n < 16 then [Nat.digitChar n]
  else if n < 256 then [Nat.digitChar (n / 16), Nat.digitChar (n % 16)]
  else if n < 4096 then
    [Nat.digitChar (n / 256), Nat.digitChar (n / 16 % 16),
     Nat.digitChar (n % 16)]
  else
    [Nat.digitChar (n / 4096), Nat.digitChar (n / 256 % 16),
     Nat.digitChar (n / 16 % 16), Nat.digitChar (n % 16)]

/-- Read a nonempty all-hex-digit character list as a number
(accumulator form). -/
def readHexAux : List Char → Nat → Option Nat
  | [], acc => some acc
  | c :: r, acc =>
    match hexDigit? c with
    | some d => readHexAux r (16 * acc + d)
    | Option.none => Option.none

/-- Read a nonempty all-hex-digit character list as a number. -/
def readHex : List Char → Option Nat
  | [] => Option.none
  | c :: r => readHexAux (c :: r) 0

/-- Split a character list on single `':'` separators. -/
def splitColonChars : List Char → List (List Char)
  | [] => [[]]
  | c :: r =>
    if c = ':' then [] :: splitColonChars r
    else
      match splitColonChars r with
      | [] => [[c]]
      | g :: gs => (c :: g) :: gs

/-- Join token lists with single `':'` separators (left inverse of the
splitter on nonempty colon-free tokens). -/
def joinColon : List (List Char) → List Char
  | [] => []
  | [t] => t
  | t :: ts => t ++ ':' :: joinColon ts

/-- Split a character list at the first `"::"`, when one occurs. -/
def splitDC : List Char → Option (List Char × List Char)
  | [] => Option.none
  | [_] => Option.none
  | a :: b :: rest =>
    if a = ':' ∧ b = ':' then some ([], rest)
    else (splitDC (b :: rest)).map (fun p => (a :: p.1, p.2))

/-- No two adjacent colons anywhere in the character list. -/
def noDC : List Char → Bool
  | a :: b :: r => !(a = ':' && b = ':') && noDC (b :: r)
  | _ => true

/-- Length of the leading run of zero groups. -/
def runLen : List Nat → Nat
  | 0 :: r => runLen r + 1
  | _ => 0

/-- The longest run of zero groups (leftmost on ties): `(start, length)`;
`(0, 0)` when the list has no zero group. -/
def bestZeroRun (gs : List Nat) : Nat × Nat :=
  (List.range gs.length).foldl
    (fun best i =>
      if best.2 < runLen (gs.drop i) then (i, runLen (gs.drop i)) else best)
    (0, 0)

/-- Modelled from the spec: `str()` of a version-6 `netaddr.IPAddress` —
lowercase hex groups joined with `':'`, the longest run of two or more zero
groups (leftmost on ties) compressed to `"::"` (netaddr's compact form:
`str(IPAddress('::1'))` is `'::1'`, as the repository's `test_ip_hydration`
expects on the wire). -/
def format6Chars (gs : List Nat) : List Char :=
  if 2 ≤ (bestZeroRun gs).2 then
    joinColon ((gs.take (bestZeroRun gs).1).map hexChars) ++ ':' :: ':' ::
      joinColon ((gs.drop ((bestZeroRun gs).1 + (bestZeroRun gs).2)).map
        hexChars)
  else joinColon (gs.map hexChars)

/-- Modelled from the spec: `str()` of a `netaddr.IPAddress` — the
dotted-quad form for version 4, the compact hex-groups form for version 6. -/
def formatIPChars (a : IPAddr) : List Char :=
  match a with
  | .v4 o1 o2 o3 o4 =>
    octChars o1 ++ '.' :: (octChars o2 ++ '.' :: (octChars o3 ++
      '.' :: octChars o4))
  | .v6 gs => format6Chars gs

/-- `str(ipaddress)`. -/
def formatIP (a : IPAddr) : String :=
  String.mk (formatIPChars a)

/-- Parse a dotted-quad IPv4 address: exactly four all-digit groups, each at
most 255. -/
def parseIPv4 (cs : List Char) : Option IPAddr :=
  match (splitDotChars cs).map readDigits with
  | [some a, some b, some c, some d] =>
    if a ≤ 255 ∧ b ≤ 255 ∧ c ≤ 255 ∧ d ≤ 255 then some (.v4 a b c d)
    else Option.none
  | _ => Option.none

/-- Hextet groups from a colon-separated token list, range-checked. -/
def readGroups : List (List Char) → Option (List Nat)
  | [] => some []
  | t :: rest =>
    match readHex t, readGroups rest with
    | some g, some gs =>
      if g < 65536 then some (g :: gs) else Option.none
    | _, _ => Option.none

/-- Tokens of one side of a `"::"`: an empty side contributes no groups. -/
def sideTokens (cs : List Char) : List (List Char) :=
  if cs.isEmpty then [] else splitColonChars cs

/-- Modelled from the spec: parsing the hex-groups text forms of a version-6
address (`netaddr.IPAddress(value, version=6)`): RFC-4291 colon-separated
hextets with at most one `"::"` standing for at least one zero group.
(Embedded dotted-quad tails are not modelled; no theorem feeds one.) -/
def parse6 (cs : List Char) : Option (List Nat) :=
  match splitDC cs with
  | some (before, after) =>
    match readGroups (sideTokens before), readGroups (sideTokens after) with
    | some L, some R =>
      if L.length + R.length < 8 then
        some (L ++ List.replicate (8 - L.length - R.length) 0 ++ R)
      else Option.none
    | _, _ => Option.none
  | Option.none =>
    match readGroups (splitColonChars cs) with
    | some gs => if gs.length = 8 then some gs else Option.none
    | Option.none => Option.none

/-- Modelled from the spec: `netaddr.IPAddress(value, version=version)` —
accepts an address of the requested version unchanged, parses a string in
that version's text form, or takes an integer; everything else is an
`AddrFormatError`. -/
def netaddrIPAddress (version : Nat) (v : PyVal) : Except NovaErr PyVal :=
  match v with
  | .ip a => if a.version = version then .ok (.ip a)
             else .error (.valueError "AddrFormatError")
  | .str s =>
    if version = 4 then
      match parseIPv4 s.data with
      | some a => .ok (.ip a)
      | Option.none => .error (.valueError "AddrFormatError")
    else if version = 6 then
      match parse6 s.data with
      | some gs => .ok (.ip (.v6 gs))
      | Option.none => .error (.valueError "AddrFormatError")
    else .error (.valueError "AddrFormatError")
  | .int n =>
    if version = 4 ∧ 0 ≤ n ∧ n < 4294967296 then
      .ok (.ip (.v4 ((n.toNat / 16777216) % 256) ((n.toNat / 65536) % 256)
        ((n.toNat / 256) % 256) (n.toNat % 256)))
    else if version = 6 ∧ 0 ≤ n ∧
        n < 340282366920938463463374607431768211456 then
      .ok (.ip (.v6 ((List.range 8).map
        (fun k => (n.toNat / 65536 ^ (7 - k)) % 65536))))
    else .error (.valueError "AddrFormatError")
  | _ => .error (.valueError "AddrFormatError")

/-! ### Python builtin conversions used as coercion functions -/

/-- Python truthiness, as used by `bool(value)`. -/
def pyTruthy : PyVal → Bool
  | .none => false
  | .int n => n ≠ 0
  | .str s => s ≠ ""
  | .bool b => b
  | .dt _ => true
  | .ip _ => true
  | .dict l => ¬l.isEmpty
  | .list l => ¬l.isEmpty

/-- Python `str(value)` (py2 `unicode`) on the value shapes the framework
stores; the datetime and container renderings are placeholders never relied
upon by a theorem. -/
def pyStr : PyVal → String
  | .none => "None"
  | .int n => toString n
  | .str s => s
  | .bool b => if b then "True" else "False"
  | .dt d => isotime d
  | .ip a => formatIP a
  | .dict _ => "<dict>"
  | .list _ => "<list>"

/-- Python `int(value)`: ints pass through, booleans become 0/1, strings are
parsed (raising `ValueError` when not a decimal literal), anything else is a
`TypeError`. -/
def pyInt (v : PyVal) : Except NovaErr PyVal :=
  match v with
  | .int n => .ok (.int n)
  | .bool b => .ok (.int (if b then 1 else 0))
  | .str s =>
    match pyToInt s with
    | some n => .ok (.int n)
    | Option.none => .error (.valueError "invalid literal for int()")
  | .none => .error (.typeError "int() argument must not be None")
  | _ => .error (.typeError "int() argument")

end Nova

namespace Nova.fields

/-! ### `nova/objects/fields.py` -/

/-- A field-type descriptor: the `nullable` flag of `Field.__init__` plus the
three overridable helpers `_coerce`, `_from_primitive`, `_to_primitive` of
the concrete subclass. -/
structure Field where
  nullable : Bool
  rawCoerce : PyVal → Except NovaErr PyVal
  rawFromPrim : PyVal → Except NovaErr PyVal
  rawToPrim : PyVal → Except NovaErr PyVal

/-- `enforce_nullable`: reject `None` for a non-nullable field with
`ValueError("Field `attr' cannot be None")`, else run the wrapped function. -/
def enforce_nullable (nullable : Bool) (attr : String)
    (fn : PyVal → Except NovaErr PyVal) (value : PyVal) :
    Except NovaErr PyVal :=
  match value with
  | .none => if nullable then fn .none else .error (.fieldRequired attr)
  | v => fn v

/-- `Field.coerce`: `None` passes through (when nullable), a real value goes
to the subclass `_coerce`. -/
def Field.coerce (f : Field) (attr : String) (value : PyVal) :
    Except NovaErr PyVal :=
  enforce_nullable f.nullable attr
    (fun v => match v with
      | .none => .ok .none
      | w => f.rawCoerce w) value

/-- `Field.from_primitive`: `None` passes through (when nullable), a real
value goes to the subclass `_from_primitive`. -/
def Field.from_primitive (f : Field) (attr : String) (value : PyVal) :
    Except NovaErr PyVal :=
  enforce_nullable f.nullable attr
    (fun v => match v with
      | .none => .ok .none
      | w => f.rawFromPrim w) value

/-- `Field.to_primitive`: `None` passes through (when nullable), a real value
goes to the subclass `_to_primitive`. -/
def Field.to_primitive (f : Field) (attr : String) (value : PyVal) :
    Except NovaErr PyVal :=
  enforce_nullable f.nullable attr
    (fun v => match v with
      | .none => .ok .none
      | w => f.rawToPrim w) value

/-- `StringField`: `_coerce` is `unicode(value)`; `_from_primitive` and
`_to_primitive` are the base-class identity. -/
def StringField (nullable : Bool) : Field :=
  ⟨nullable, fun v => .ok (.str (pyStr v)), .ok, .ok⟩

/-- `IntegerField`: `_coerce` is `int(value)`. -/
def IntegerField (nullable : Bool) : Field :=
  ⟨nullable, pyInt, .ok, .ok⟩

/-- `BooleanField`: `_coerce` is `bool(value)`. -/
def BooleanField (nullable : Bool) : Field :=
  ⟨nullable, fun v => .ok (.bool (pyTruthy v)), .ok, .ok⟩

/-- `DateTimeField._coerce`: a string is parsed with
`timeutils.parse_isotime`, a datetime passes; anything else is
`ValueError('A datetime.datetime is required here')`; a naive result gets
UTC attached. -/
def dtCoerce (v : PyVal) : Except NovaErr PyVal :=
  match v with
  | .str s =>
    match parse_isotime s with
    | .ok d => .ok (.dt (if d.tz = Option.none then { d with tz := some 0 } else d))
    | .error e => .error e
  | .dt d => .ok (.dt (if d.tz = Option.none then { d with tz := some 0 } else d))
  | _ => .error (.valueError "A datetime.datetime is required here")

/-- `DateTimeField._from_primitive` is `timeutils.parse_isotime`. -/
def dtFromPrim (v : PyVal) : Except NovaErr PyVal :=
  match v with
  | .str s => (parse_isotime s).map .dt
  | _ => .error (.typeError "parse_isotime expects a string")

/-- `DateTimeField._to_primitive` is `timeutils.isotime`. -/
def dtToPrim (v : PyVal) : Except NovaErr PyVal :=
  match v with
  | .dt d => .ok (.str (isotime d))
  | _ => .error (.typeError "isotime expects a datetime")

/-- `DateTimeField`. -/
def DateTimeField (nullable : Bool) : Field :=
  ⟨nullable, dtCoerce, dtFromPrim, dtToPrim⟩

/-- `IPAddressField`: `_coerce` is `netaddr.IPAddress(value, version)`,
`_from_primitive` is `_coerce`, `_to_primitive` is `str(value)`. -/
def IPAddressField (version : Nat) (nullable : Bool) : Field :=
  ⟨nullable, netaddrIPAddress version,
   netaddrIPAddress version,
   fun v => match v with
     | .ip a => .ok (.str (formatIP a))
     | _ => .error (.typeError "str of a non-address")⟩

/-- `ListField`: `_coerce` validates a list whose elements satisfy the
element-type check; serialization helpers are the base identity. -/
def ListField (elementOk : PyVal → Bool) (nullable : Bool) : Field :=
  ⟨nullable,
   fun v => match v with
     | .list l => if l.all elementOk then .ok (.list l)
                  else .error (.valueError "Elements must be of the element type")
     | _ => .error (.valueError "A list is required here"),
   .ok, .ok⟩

/-- `DictField`: `_coerce` validates a string-keyed dict whose values satisfy
the element-type check; serialization helpers are the base identity. -/
def DictField (elementOk : PyVal → Bool) (nullable : Bool) : Field :=
  ⟨nullable,
   fun v => match v with
     | .dict l => if (l.map Prod.snd).all elementOk then .ok (.dict l)
                  else .error (.valueError "Elements must be of the element type")
     | _ => .error (.valueError "A dict is required here"),
   .ok, .ok⟩

end Nova.fields

namespace Nova

/-! ### `nova/object/base.py` -/

/-- What `NovaObject` knows about one declared field: the coercion callable
from the `fields` table (`typefn`), and the optional per-attribute
serialization handlers `_attr_<name>_to_primitive` /
`_attr_<name>_from_primitive` (`fun v => v` / `Except.ok` when the class
declares none, matching the identity defaults of `_attr_to_primitive` /
`_attr_from_primitive`).  `toPrim` is applied only to values that already
passed `typefn`, so it is total here. -/
structure FieldSpec where
  coerce : PyVal → Except NovaErr PyVal
  toPrim : PyVal → PyVal
  fromPrim : PyVal → Except NovaErr PyVal

/-- A field whose typefn is `fn` and whose serialization is the default. -/
def mkFS (fn : PyVal → Except NovaErr PyVal) : FieldSpec :=
  ⟨fn, fun v => v, .ok⟩

/-- One registered object class: `objname()`, `version` and the `fields`
table (in declaration order). -/
structure ObjClass where
  name : String
  version : String
  fields : List (String × FieldSpec)

/-- Per-instance state of a `NovaObject`: the sparse backing store written by
the generated properties (only fields that have been set or loaded appear),
the `_changed_fields` set (kept as a nodup list), and the `_context`
back-reference. -/
structure ObjState where
  data : List (String × PyVal)
  changed : List String
  ctx : Option Ctx

/-- `NovaObject.__init__`: empty store, empty changed set, no context. -/
def initState : ObjState := ⟨[], [], Option.none⟩

/-- The property setter generated by `make_class_properties`: add the name to
`_changed_fields`, then run `typefn` and store the result; a coercion
exception propagates, leaving the store untouched but the name already
marked changed.  A `setattr` on a name that is not a declared field is a
plain attribute write, invisible to the field store. -/
def obj_set (c : ObjClass) (n : String) (v : PyVal) (st : ObjState) :
    ObjState × Option NovaErr :=
  match alookup c.fields n with
  | some fs =>
    let st1 : ObjState := { st with changed := addChanged n st.changed }
    match fs.coerce v with
    | .ok w => ({ st1 with data := aset st1.data n w }, Option.none)
    | .error e => (st1, some e)
  | Option.none => (st, Option.none)

/-- `NovaObject.reset_changes(fields)`: with a non-empty list, discard
exactly those names; with `None` — or an *empty* list, which is just as
falsy — clear the whole set. -/
def reset_changes (st : ObjState) (fields : Option (List String)) : ObjState :=
  match fields with
  | some fs =>
    if fs.isEmpty then { st with changed := [] }
    else { st with changed := st.changed.filter (fun n => decide (n ∉ fs)) }
  | Option.none => { st with changed := [] }

/-- `check_object_version(server, client)`: split both on `'.'` into exactly
two parts and parse the minors as ints (else the generic
`Exception('Invalid version string')`); majors are compared as strings;
a client minor ahead of the server minor is incompatible. -/
def check_object_version (server client : String) : Except NovaErr Unit :=
  match splitVersion client, splitVersion server with
  | [cmaj, cminS], [smaj, sminS] =>
    match pyToInt cminS, pyToInt sminS with
    | some cmin, some smin =>
      if cmaj ≠ smaj then .error (.incompatibleMajor cmaj smaj)
      else if smin < cmin then .error (.incompatibleMinor cmin smin)
      else .ok ()
    | _, _ => .error .invalidVersionString
  | _, _ => .error .invalidVersionString

/-- The scan loop of `class_from_name`: an exact version match returns
immediately; otherwise a candidate passing `check_object_version` replaces
the current best compatible match; `IncompatibleObjectVersion` (and its
subclasses) from the check is swallowed, any other exception propagates. -/
def cfnLoop (objname objver : String) :
    List ObjClass → Option ObjClass → Except NovaErr ObjClass
  | [], some best => .ok best
  | [], Option.none => .error (.incompatibleVersion objname objver)
  | c :: rest, best =>
    if c.version = objver then .ok c
    else
      match check_object_version c.version objver with
      | .ok _ => cfnLoop objname objver rest (some c)
      | .error e =>
        if e.isIncompatibleVersion then cfnLoop objname objver rest best
        else .error e

/-- `NovaObject.class_from_name`: the registry (`_obj_classes`, modelled as
the flat registration-order list) restricted to `objname` must be nonempty,
then the scan loop runs. -/
def class_from_name (registry : List ObjClass) (objname objver : String) :
    Except NovaErr ObjClass :=
  let classes := registry.filter (fun c => c.name == objname)
  if classes.isEmpty then .error (.unsupportedObject objname)
  else cfnLoop objname objver classes Option.none

/-- The wire envelope of `to_primitive` / `from_primitive`. -/
structure Envelope where
  name : String
  version : String
  data : List (String × PyVal)
  changes : Option (List String)

/-- The data map built by `to_primitive`: walk the class `fields` table and
emit, for each field whose backing attribute is set, the result of
`_attr_to_primitive`. -/
def toPrimData (st : ObjState) : List (String × FieldSpec) → List (String × PyVal)
  | [] => []
  | (n, f) :: rest =>
    match alookup st.data n with
    | some v => (n, f.toPrim v) :: toPrimData st rest
    | Option.none => toPrimData st rest

/-- `NovaObject.to_primitive`: name, version, the data map of set fields, and
— only when `what_changed()` is non-empty — the changes list. -/
def to_primitive (c : ObjClass) (st : ObjState) : Envelope :=
  { name := c.name
    version := c.version
    data := toPrimData st c.fields
    changes := if st.changed.isEmpty then Option.none else some st.changed }

/-- The hydration loop of `from_primitive`: for each declared field present
in the envelope data, run `_attr_from_primitive` and store through the
normal setter; any exception propagates. -/
def applyFields (c : ObjClass) :
    List (String × FieldSpec) → List (String × PyVal) → ObjState →
    Except NovaErr ObjState
  | [], _, st => .ok st
  | (n, f) :: rest, pdata, st =>
    match alookup pdata n with
    | some v =>
      match f.fromPrim v with
      | .error e => .error e
      | .ok v' =>
        match obj_set c n v' st with
        | (st', Option.none) => applyFields c rest pdata st'
        | (_, some e) => .error e
    | Option.none => applyFields c rest pdata st

/-- Is `n` a declared field of `c` (Python `n in self.fields`)? -/
def isField (c : ObjClass) (n : String) : Bool :=
  (alookup c.fields n).isSome

/-- `NovaObject.from_primitive`: resolve the class from the envelope's name
and version, hydrate every data field through the setters, then overwrite
`_changed_fields` with the envelope's changes list (defaulting to empty)
filtered to declared fields. -/
def from_primitive (registry : List ObjClass) (p : Envelope) :
    Except NovaErr (ObjClass × ObjState) :=
  match class_from_name registry p.name p.version with
  | .error e => .error e
  | .ok c =>
    match applyFields c c.fields p.data initState with
    | .error e => .error e
    | .ok st =>
      .ok (c, { st with
                changed := dedupKeep ((p.changes.getD []).filter (isField c)) })

/-- The installed `indirection_api`, at the granularity `magic` uses it:
`object_action(context, self, method, version, kwargs)` with `self` crossing
the wire as its envelope, returning the field updates and the call result. -/
abbrev Dispatcher :=
  Ctx → Envelope → String → String → List (String × PyVal) →
    (List (String × PyVal)) × PyVal

/-- The update-application loop of `magic`'s remote branch:
`for key, value in updates.iteritems(): self[key] = value` through the
normal setters, any exception propagating. -/
def applyUpdates (c : ObjClass) :
    List (String × PyVal) → ObjState → Except NovaErr ObjState
  | [], st => .ok st
  | (n, v) :: rest, st =>
    match obj_set c n v st with
    | (st', Option.none) => applyUpdates c rest st'
    | (_, some e) => .error e

/-- The instance-method wrapper `magic(fn)`: resolve the context (explicit
argument, else the stored `_context`, else `OrphanedObjectError`); with an
indirection api installed, send the instance over the wire, apply the
returned updates through the setters, `reset_changes(updates.keys())`, and
return the remote result; with none installed, run the wrapped function. -/
def magic (c : ObjClass) (fnName : String) (kwargs : List (String × PyVal))
    (localFn : Ctx → List (String × PyVal) → ObjState →
      Except NovaErr (ObjState × PyVal))
    (indirection : Option Dispatcher) (st : ObjState) (context : Option Ctx) :
    Except NovaErr (ObjState × PyVal) :=
  let ctxR := match context with
    | Option.none => st.ctx
    | some cx => some cx
  match ctxR with
  | Option.none => .error (.orphanedObject fnName c.name)
  | some cx =>
    match indirection with
    | some api =>
      let (updates, result) := api cx (to_primitive c st) fnName c.version kwargs
      match applyUpdates c updates st with
      | .error e => .error e
      | .ok st1 => .ok (reset_changes st1 (some (updates.map Prod.fst)), result)
    | Option.none => localFn cx kwargs st

/-! ### `nova/object/instance.py` -/

/-- `datetime_or_none`: `None` or a datetime passes, anything else is a
`ValueError`. -/
def datetime_or_none (v : PyVal) : Except NovaErr PyVal :=
  match v with
  | .none => .ok .none
  | .dt d => .ok (.dt d)
  | _ => .error (.valueError "A datetime.datetime is required here")

/-- `int_or_none`. -/
def int_or_none (v : PyVal) : Except NovaErr PyVal :=
  match v with
  | .none => .ok .none
  | w => pyInt w

/-- `str_or_none`. -/
def str_or_none (v : PyVal) : Except NovaErr PyVal :=
  match v with
  | .none => .ok .none
  | w => .ok (.str (pyStr w))

/-- `ip_or_none(version)`. -/
def ip_or_none (version : Nat) (v : PyVal) : Except NovaErr PyVal :=
  match v with
  | .none => .ok .none
  | w => netaddrIPAddress version w

/-- The `bool` typefn. -/
def pyBool (v : PyVal) : Except NovaErr PyVal :=
  .ok (.bool (pyTruthy v))

/-- The `dict` typefn: Python `dict(value)` on an existing mapping copies it;
the non-mapping failure modes are collapsed to one error. -/
def pyDict (v : PyVal) : Except NovaErr PyVal :=
  match v with
  | .dict l => .ok (.dict l)
  | _ => .error (.typeError "cannot convert to dict")

/-- `dt_serializer(name)`: `isotime(self[name])` when the value is set and
not `None`, else `None`.  Applied only to values `datetime_or_none`
accepted, so the remaining constructors are unreachable and pass through. -/
def dtSerialize (v : PyVal) : PyVal :=
  match v with
  | .none => .none
  | .dt d => .str (isotime d)
  | w => w

/-- `dt_deserializer`: `None` passes, a string is parsed with
`parse_isotime`, anything else is the parse failure. -/
def dtDeserialize (v : PyVal) : Except NovaErr PyVal :=
  match v with
  | .none => .ok .none
  | .str s => (parse_isotime s).map .dt
  | _ => .error (.typeError "parse_isotime expects a string")

/-- A datetime field of `Instance`: `datetime_or_none` typefn with the
`dt_serializer`/`dt_deserializer` attribute handlers. -/
def dtFS : FieldSpec := ⟨datetime_or_none, dtSerialize, dtDeserialize⟩

/-- `_attr_access_ip_vN_to_primitive`: `str(value)` unless `None`. -/
def ipSerialize (v : PyVal) : PyVal :=
  match v with
  | .none => .none
  | .ip a => .str (formatIP a)
  | w => w

/-- An IP-address field of `Instance`: `ip_or_none(version)` typefn with the
string serializer and the identity deserializer (the class declares no
`_from_primitive` handler for these fields, so hydration re-runs the typefn
on the wire string). -/
def ipFS (version : Nat) : FieldSpec :=
  ⟨ip_or_none version, ipSerialize, .ok⟩

/-- The `Instance` object type: its `fields` table, in source order. -/
def InstanceCls : ObjClass :=
  { name := "Instance"
    version := "1.0"
    fields :=
      [("id", mkFS pyInt),
       ("user_id", mkFS str_or_none),
       ("project_id", mkFS str_or_none),
       ("image_ref", mkFS str_or_none),
       ("kernel_id", mkFS str_or_none),
       ("ramdisk_id", mkFS str_or_none),
       ("hostname", mkFS str_or_none),
       ("launch_index", mkFS int_or_none),
       ("key_name", mkFS str_or_none),
       ("key_data", mkFS str_or_none),
       ("power_state", mkFS int_or_none),
       ("vm_state", mkFS str_or_none),
       ("task_state", mkFS str_or_none),
       ("memory_mb", mkFS int_or_none),
       ("vcpus", mkFS int_or_none),
       ("root_gb", mkFS int_or_none),
       ("ephemeral_gb", mkFS int_or_none),
       ("host", mkFS str_or_none),
       ("node", mkFS str_or_none),
       ("instance_type_id", mkFS int_or_none),
       ("user_data", mkFS str_or_none),
       ("reservation_id", mkFS str_or_none),
       ("created_at", dtFS),
       ("updated_at", dtFS),
       ("deleted_at", dtFS),
       ("scheduled_at", dtFS),
       ("launched_at", dtFS),
       ("terminated_at", dtFS),
       ("availability_zone", mkFS str_or_none),
       ("display_name", mkFS str_or_none),
       ("display_description", mkFS str_or_none),
       ("launched_on", mkFS str_or_none),
       ("locked", mkFS pyBool),
       ("os_type", mkFS str_or_none),
       ("architecture", mkFS str_or_none),
       ("vm_mode", mkFS str_or_none),
       ("uuid", mkFS str_or_none),
       ("root_device_name", mkFS str_or_none),
       ("default_ephemeral_device", mkFS str_or_none),
       ("default_swap_device", mkFS str_or_none),
       ("config_drive", mkFS str_or_none),
       ("access_ip_v4", ipFS 4),
       ("access_ip_v6", ipFS 6),
       ("auto_disk_config", mkFS pyBool),
       ("progress", mkFS int_or_none),
       ("shutdown_terminate", mkFS pyBool),
       ("disable_terminate", mkFS pyBool),
       ("cell_name", mkFS str_or_none),
       ("metadata", mkFS pyDict),
       ("system_metadata", mkFS pyDict)] }

/-- The `Widget` type of the spec's scenarios: version `1.0`, one integer
field `count`. -/
def WidgetCls : ObjClass :=
  { name := "Widget", version := "1.0", fields := [("count", mkFS pyInt)] }

/-- A version string is well formed when it splits into exactly two parts on
`'.'` and the minor parses as an int — the `"major.minor"` domain of the
spec. -/
def wfVer (s : String) : Bool :=
  match splitVersion s with
  | [_, minS] => (pyToInt minS).isSome
  | _ => false

/-- The ranges `datetime.datetime(...)` enforces (with the day bound relaxed
to 31 as in our parse model). -/
def wfDT (d : PyDateTime) : Bool :=
  1 ≤ d.year && d.year ≤ 9999 && 1 ≤ d.month && d.month ≤ 12 &&
    1 ≤ d.day && d.day ≤ 31 && d.hour ≤ 23 && d.minute ≤ 59 &&
    d.second ≤ 59 && d.microsecond < 1000000

/-- A structurally valid address: octet-bounded for version 4, exactly
eight 16-bit groups for version 6. -/
def wfIP : IPAddr → Bool
  | .v4 o1 o2 o3 o4 =>
    o1 ≤ 255 && o2 ≤ 255 && o3 ≤ 255 && o4 ≤ 255
  | .v6 gs =>
    decide (gs.length = 8) && gs.all (fun g => decide (g < 65536))

end Nova

namespace Nova

/-! ### Basic lemmas about the list utilities -/

theorem alookup_cons {β : Type} (k : String) (v : β) (l : List (String × β))
    (n : String) :
    alookup ((k, v) :: l) n = if k = n then some v else alookup l n := rfl

theorem alookup_aset {β : Type} (d : List (String × β)) (n : String) (v : β)
    (m : String) :
    alookup (aset d n v) m = if n = m then some v else alookup d m := by
  induction d with
  | nil =>
    by_cases h : n = m <;> simp [aset, alookup, h]
  | cons kv rest ih =>
    obtain ⟨k, w⟩ := kv
    by_cases hk : k = n
    · subst hk
      by_cases h : k = m <;> simp [aset, alookup, h]
    · have h1 : aset ((k, w) :: rest) n v = (k, w) :: aset rest n v := by
        rw [aset, if_neg hk]
      rw [h1, alookup_cons, alookup_cons, ih]
      by_cases h : k = m
      · subst h
        rw [if_pos rfl, if_pos rfl, if_neg (fun he => hk he.symm)]
      · rw [if_neg h, if_neg h]

theorem alookup_eq_none_iff {β : Type} (l : List (String × β)) (n : String) :
    alookup l n = Option.none ↔ n ∉ l.map Prod.fst := by
  induction l with
  | nil => simp [alookup]
  | cons kv rest ih =>
    obtain ⟨k, w⟩ := kv
    rw [List.map_cons, List.mem_cons, alookup_cons]
    by_cases h : k = n
    · subst h
      simp
    · rw [if_neg h, ih]
      simp only [not_or]
      constructor
      · intro hh
        exact ⟨fun he => h he.symm, hh⟩
      · intro hh
        exact hh.2

theorem mem_addChanged (n : String) (l : List String) (m : String) :
    m ∈ addChanged n l ↔ m = n ∨ m ∈ l := by
  by_cases h : n ∈ l
  · simp [addChanged, h]
    intro he
    subst he
    exact h
  · simp [addChanged, h, or_comm]

theorem mem_dedupKeep (l : List String) (m : String) :
    m ∈ dedupKeep l ↔ m ∈ l := by
  induction l with
  | nil => simp [dedupKeep]
  | cons x r ih =>
    simp only [dedupKeep, List.mem_cons, List.mem_filter, ih, decide_eq_true_eq]
    constructor
    · rintro (h | ⟨h, _⟩)
      · exact Or.inl h
      · exact Or.inr h
    · rintro (h | h)
      · exact Or.inl h
      · by_cases hx : m = x
        · exact Or.inl hx
        · exact Or.inr ⟨h, hx⟩

theorem filter_ne_eq_self (l : List String) (x : String) (h : x ∉ l) :
    l.filter (fun y => decide (y ≠ x)) = l := by
  induction l with
  | nil => rfl
  | cons a r ih =>
    rw [List.mem_cons, not_or] at h
    rw [List.filter_cons,
      if_pos (by simp only [decide_eq_true_eq]; exact fun he => h.1 he.symm),
      ih h.2]

theorem dedupKeep_eq_self (l : List String) (h : l.Nodup) : dedupKeep l = l := by
  induction l with
  | nil => rfl
  | cons x r ih =>
    rw [List.nodup_cons] at h
    rw [dedupKeep, ih h.2, filter_ne_eq_self r x h.1]

theorem filter_eq_self_of_forall (l : List String) (p : String → Bool)
    (h : ∀ x ∈ l, p x = true) : l.filter p = l := by
  induction l with
  | nil => rfl
  | cons a r ih =>
    simp [List.filter_cons, h a (List.mem_cons_self a r),
      ih (fun x hx => h x (List.mem_cons_of_mem a hx))]

end Nova

namespace Nova

/-! ### Version negotiation lemmas -/

theorem check_wf_cases (s c : String) (hs : wfVer s = true)
    (hc : wfVer c = true) :
    check_object_version s c = .ok () ∨
      ∃ e, check_object_version s c = .error e ∧
        e.isIncompatibleVersion = true := by
  unfold wfVer at hs hc
  rcases hsv : splitVersion s with _ | ⟨smaj, _ | ⟨sminS, _ | _⟩⟩ <;>
    rw [hsv] at hs <;> try simp at hs
  rcases hcv : splitVersion c with _ | ⟨cmaj, _ | ⟨cminS, _ | _⟩⟩ <;>
    rw [hcv] at hc <;> try simp at hc
  rcases hcm : pyToInt cminS with _ | cmin
  · rw [hcm] at hc
    simp at hc
  rcases hsm : pyToInt sminS with _ | smin
  · rw [hsm] at hs
    simp at hs
  have hred : check_object_version s c =
      if cmaj ≠ smaj then .error (.incompatibleMajor cmaj smaj)
      else if smin < cmin then .error (.incompatibleMinor cmin smin)
      else .ok () := by
    simp only [check_object_version, hsv, hcv, hcm, hsm]
  rw [hred]
  by_cases hmaj : cmaj ≠ smaj
  · right
    refine ⟨NovaErr.incompatibleMajor cmaj smaj, ?_, rfl⟩
    rw [if_pos hmaj]
  · by_cases hmin : smin < cmin
    · right
      refine ⟨NovaErr.incompatibleMinor cmin smin, ?_, rfl⟩
      rw [if_neg hmaj, if_pos hmin]
    · left
      rw [if_neg hmaj, if_neg hmin]

theorem cfnLoop_exact (objname objver : String) :
    ∀ (l1 : List ObjClass) (c : ObjClass) (l2 : List ObjClass)
      (best : Option ObjClass),
      (∀ c' ∈ l1, wfVer c'.version = true ∧ c'.version ≠ objver) →
      wfVer objver = true →
      c.version = objver →
      cfnLoop objname objver (l1 ++ c :: l2) best = .ok c := by
  intro l1
  induction l1 with
  | nil =>
    intro c l2 best _ _ hc
    rw [List.nil_append, cfnLoop, if_pos hc]
  | cons d l1' ih =>
    intro c l2 best h1 hwfv hc
    obtain ⟨hwfd, hned⟩ := h1 d (List.mem_cons_self d l1')
    have h1' : ∀ c' ∈ l1', wfVer c'.version = true ∧ c'.version ≠ objver :=
      fun c' hc' => h1 c' (List.mem_cons_of_mem d hc')
    rw [List.cons_append, cfnLoop, if_neg hned]
    rcases check_wf_cases d.version objver hwfd hwfv with hok | ⟨e, herr, hinc⟩
    · rw [hok]
      exact ih c l2 (some d) h1' hwfv hc
    · rw [herr]
      show (if e.isIncompatibleVersion = true then
          cfnLoop objname objver (l1' ++ c :: l2) best else .error e) = _
      rw [if_pos hinc]
      exact ih c l2 best h1' hwfv hc

theorem cfnLoop_noexact (objname objver : String) :
    ∀ (l : List ObjClass) (best : Option ObjClass),
      (∀ c' ∈ l, wfVer c'.version = true ∧ c'.version ≠ objver) →
      wfVer objver = true →
      cfnLoop objname objver l best =
        match (l.filter
            (fun c => isOkE (check_object_version c.version objver))).getLast? with
        | some b => .ok b
        | Option.none =>
          match best with
          | some b => .ok b
          | Option.none => .error (.incompatibleVersion objname objver) := by
  intro l
  induction l with
  | nil =>
    intro best _ _
    cases best <;> rfl
  | cons c rest ih =>
    intro best h hwfv
    obtain ⟨hwfc, hnec⟩ := h c (List.mem_cons_self c rest)
    have h' : ∀ c' ∈ rest, wfVer c'.version = true ∧ c'.version ≠ objver :=
      fun c' hc' => h c' (List.mem_cons_of_mem c hc')
    rw [cfnLoop, if_neg hnec]
    rcases check_wf_cases c.version objver hwfc hwfv with hok | ⟨e, herr, hinc⟩
    · rw [hok, ih (some c) h' hwfv, List.filter_cons,
        if_pos (by rw [hok]; rfl)]
      rw [List.getLast?_cons]
      cases hfr : (rest.filter
          (fun cc => isOkE (check_object_version cc.version objver))).getLast? with
      | none => simp [hfr]
      | some b => simp [hfr]
    · rw [herr]
      show (if e.isIncompatibleVersion = true then
          cfnLoop objname objver rest best else .error e) = _
      rw [if_pos hinc, ih best h' hwfv, List.filter_cons,
        if_neg (by rw [herr]; simp [isOkE])]

end Nova

namespace Nova

/-- C3: for all well-formed `"major.minor"` version strings,
`check_object_version(server, client)` fails with
`IncompatibleObjectMajorVersion` when the major components differ, fails
with `IncompatibleObjectMinorVersion` when the majors are equal and the
client minor is greater than the server minor, and succeeds when the majors
are equal and the client minor is at most the server minor. -/
theorem C3_check_object_version (server client : String)
    (smaj sminS cmaj cminS : String) (smin cmin : Int)
    (hs : splitVersion server = [smaj, sminS])
    (hsm : pyToInt sminS = some smin)
    (hc : splitVersion client = [cmaj, cminS])
    (hcm : pyToInt cminS = some cmin) :
    (cmaj ≠ smaj →
      check_object_version server client =
        .error (.incompatibleMajor cmaj smaj)) ∧
    (cmaj = smaj → smin < cmin →
      check_object_version server client =
        .error (.incompatibleMinor cmin smin)) ∧
    (cmaj = smaj → cmin ≤ smin →
      check_object_version server client = .ok ()) := by
  have hred : check_object_version server client =
      if cmaj ≠ smaj then .error (.incompatibleMajor cmaj smaj)
      else if smin < cmin then .error (.incompatibleMinor cmin smin)
      else .ok () := by
    simp only [check_object_version, hs, hc, hsm, hcm]
  refine ⟨?_, ?_, ?_⟩
  · intro hmaj
    rw [hred, if_pos hmaj]
  · intro hmaj hmin
    rw [hred, if_neg (fun hne => hne hmaj), if_pos hmin]
  · intro hmaj hmin
    rw [hred, if_neg (fun hne => hne hmaj), if_neg (not_lt.mpr hmin)]

/-- Witness for C3 at the spec's concrete examples:
`checkVersion("1.5","1.2")` succeeds, `checkVersion("1.5","1.6")` fails with
the minor mismatch, `checkVersion("2.0","1.5")` fails with the major
mismatch. -/
theorem C3_witness :
    check_object_version "1.5" "1.2" = .ok () ∧
    check_object_version "1.5" "1.6" = .error (.incompatibleMinor 6 5) ∧
    check_object_version "2.0" "1.5" = .error (.incompatibleMajor "1" "2") := by
  refine ⟨?_, ?_, ?_⟩
  · exact (C3_check_object_version "1.5" "1.2" "1" "5" "1" "2" 5 2
      rfl rfl rfl rfl).2.2 rfl (by decide)
  · exact (C3_check_object_version "1.5" "1.6" "1" "5" "1" "6" 5 6
      rfl rfl rfl rfl).2.1 rfl (by decide)
  · exact (C3_check_object_version "2.0" "1.5" "2" "0" "1" "5" 0 5
      rfl rfl rfl rfl).1 (by decide)

/-- C2: resolution over the registered descriptors for a name (all with
well-formed versions): an exact version match is returned no matter where it
sits in registration order; with no exact match, the last descriptor in
registration order passing `check_object_version` is returned, and
`IncompatibleObjectVersion` is raised when none passes. -/
theorem C2_class_from_name_resolution (registry : List ObjClass)
    (objname objver : String)
    (hwf : ∀ c ∈ registry, wfVer c.version = true)
    (hwfv : wfVer objver = true) :
    (∀ l1 c l2,
      registry.filter (fun c => c.name == objname) = l1 ++ c :: l2 →
      c.version = objver →
      (∀ c' ∈ l1, c'.version ≠ objver) →
      class_from_name registry objname objver = .ok c) ∧
    (registry.filter (fun c => c.name == objname) ≠ [] →
     (∀ c ∈ registry.filter (fun c => c.name == objname),
        c.version ≠ objver) →
     class_from_name registry objname objver =
       match ((registry.filter (fun c => c.name == objname)).filter
           (fun c => isOkE (check_object_version c.version objver))).getLast? with
       | some b => .ok b
       | Option.none => .error (.incompatibleVersion objname objver)) := by
  constructor
  · intro l1 c l2 hcls hcv hne
    have hwfcls : ∀ c' ∈ l1, wfVer c'.version = true ∧ c'.version ≠ objver := by
      intro c' hc'
      have hmem : c' ∈ registry.filter (fun c => c.name == objname) := by
        rw [hcls]
        exact List.mem_append_left _ hc'
      exact ⟨hwf c' (List.mem_filter.mp hmem).1, hne c' hc'⟩
    unfold class_from_name
    rw [hcls]
    rw [if_neg (by cases l1 <;> simp)]
    exact cfnLoop_exact objname objver l1 c l2 Option.none hwfcls hwfv hcv
  · intro hne hall
    have hwfcls : ∀ c' ∈ registry.filter (fun c => c.name == objname),
        wfVer c'.version = true ∧ c'.version ≠ objver := by
      intro c' hc'
      exact ⟨hwf c' (List.mem_filter.mp hc').1, hall c' hc'⟩
    unfold class_from_name
    rw [if_neg (by
      intro h
      exact hne (List.isEmpty_iff.mp h))]
    rw [cfnLoop_noexact objname objver _ Option.none hwfcls hwfv]

/-- Witness for C2: with `{name="W", version="1.0"}` and
`{name="W", version="1.3"}` both registered, resolving `"1.0"` returns the
`1.0` descriptor (exact match), and resolving `"1.2"` returns the last
compatible descriptor, `1.3`. -/
theorem C2_witness :
    class_from_name [⟨"W", "1.0", []⟩, ⟨"W", "1.3", []⟩] "W" "1.0" =
      .ok ⟨"W", "1.0", []⟩ ∧
    class_from_name [⟨"W", "1.0", []⟩, ⟨"W", "1.3", []⟩] "W" "1.2" =
      .ok ⟨"W", "1.3", []⟩ := by
  have hwf : ∀ c ∈ [(⟨"W", "1.0", []⟩ : ObjClass), ⟨"W", "1.3", []⟩],
      wfVer c.version = true := by
    intro c hc
    cases hc with
    | head => rfl
    | tail _ hc' =>
      cases hc' with
      | head => rfl
      | tail _ h => cases h
  constructor
  · exact (C2_class_from_name_resolution _ "W" "1.0" hwf rfl).1
      [] ⟨"W", "1.0", []⟩ [⟨"W", "1.3", []⟩] rfl rfl
      (by intro c' hc'; cases hc')
  · have hall : ∀ c ∈ ([⟨"W", "1.0", []⟩, ⟨"W", "1.3", []⟩] :
        List ObjClass).filter (fun c => c.name == "W"), c.version ≠ "1.2" := by
      intro c hc
      cases hc with
      | head => decide
      | tail _ hc' =>
        cases hc' with
        | head => decide
        | tail _ h => cases h
    have h2 := (C2_class_from_name_resolution _ "W" "1.2" hwf rfl).2
      (by exact fun h => List.noConfusion h) hall
    rw [h2]
    rfl

end Nova

namespace Nova

/-- C10: when a generated field setter's type coercion fails, the exception
propagates (`some e`) and the field's stored value is untouched (the whole
backing store is unchanged, so an unset field remains unset), yet the field
name was already added to `_changed_fields` before coercion was attempted. -/
theorem C10_setter_failure (c : ObjClass) (n : String) (v : PyVal)
    (st : ObjState) (fs : FieldSpec) (e : NovaErr)
    (hf : alookup c.fields n = some fs)
    (he : fs.coerce v = .error e) :
    obj_set c n v st =
      ({ st with changed := addChanged n st.changed }, some e) ∧
    (obj_set c n v st).1.data = st.data ∧
    n ∈ (obj_set c n v st).1.changed := by
  have h1 : obj_set c n v st =
      ({ st with changed := addChanged n st.changed }, some e) := by
    simp only [obj_set, hf, he]
  refine ⟨h1, by rw [h1], ?_⟩
  rw [h1]
  exact (mem_addChanged n st.changed n).mpr (Or.inl rfl)

/-- Witness for C10: assigning the non-numeric string `"a"` to the integer
field `count` of `Widget` raises, stores nothing, and leaves `count`
marked changed. -/
theorem C10_witness :
    obj_set WidgetCls "count" (.str "a") ⟨[], [], Option.none⟩ =
      (⟨[], ["count"], Option.none⟩,
        some (.valueError "invalid literal for int()")) ∧
    "count" ∈ (obj_set WidgetCls "count" (.str "a")
      ⟨[], [], Option.none⟩).1.changed := by
  have h := C10_setter_failure WidgetCls "count" (.str "a")
    ⟨[], [], Option.none⟩ (mkFS pyInt) (.valueError "invalid literal for int()")
    rfl rfl
  exact ⟨h.1, h.2.2⟩

/-- C7: `coerce(None)` succeeds (returning `None`) exactly when the field is
nullable, and otherwise fails with the field-required error naming the
field; `None` behaves the same through `to_primitive`/`from_primitive`, so a
nullable field round-trips `None` as `None`. -/
theorem C7_nullability (f : fields.Field) (attr : String) :
    (f.coerce attr .none = .ok .none ↔ f.nullable = true) ∧
    (f.nullable = false →
      f.coerce attr .none = .error (.fieldRequired attr)) ∧
    ((f.to_primitive attr .none).bind (f.from_primitive attr) =
      if f.nullable then .ok .none else .error (.fieldRequired attr)) ∧
    (f.nullable = true →
      f.to_primitive attr .none = .ok .none ∧
      f.from_primitive attr .none = .ok .none) := by
  cases hn : f.nullable <;>
    simp [fields.Field.coerce, fields.Field.to_primitive,
      fields.Field.from_primitive, fields.enforce_nullable, hn, Except.bind]

/-- Witness for C7: a nullable integer field accepts and round-trips `None`;
a non-nullable integer field rejects `None` with the field-required error. -/
theorem C7_witness :
    (fields.IntegerField true).coerce "count" .none = .ok .none ∧
    ((fields.IntegerField true).to_primitive "count" .none).bind
      ((fields.IntegerField true).from_primitive "count") = .ok .none ∧
    (fields.IntegerField false).coerce "count" .none =
      .error (.fieldRequired "count") := by
  refine ⟨?_, ?_, ?_⟩
  · exact (C7_nullability (fields.IntegerField true) "count").1.mpr rfl
  · exact ((C7_nullability (fields.IntegerField true) "count").2.2.1).trans
      (by rfl)
  · exact (C7_nullability (fields.IntegerField false) "count").2.1 rfl

end Nova

namespace Nova

/-! ### Dehydration/hydration lemmas -/

theorem obj_set_ok (c : ObjClass) (n : String) (v : PyVal) (st : ObjState)
    (fs : FieldSpec) (w : PyVal)
    (hf : alookup c.fields n = some fs) (hw : fs.coerce v = .ok w) :
    obj_set c n v st =
      (⟨aset st.data n w, addChanged n st.changed, st.ctx⟩, Option.none) := by
  simp only [obj_set, hf, hw]

theorem alookup_toPrimData_of_not_field (st : ObjState) :
    ∀ (fl : List (String × FieldSpec)) (n : String),
      alookup fl n = Option.none →
      alookup (toPrimData st fl) n = Option.none := by
  intro fl
  induction fl with
  | nil => intro n _; rfl
  | cons kg rest ih =>
    obtain ⟨k, g⟩ := kg
    intro n h
    rw [alookup_cons] at h
    by_cases hk : k = n
    · rw [if_pos hk] at h
      exact absurd h (by simp)
    · rw [if_neg hk] at h
      cases hd : alookup st.data k with
      | none =>
        simp only [toPrimData, hd]
        exact ih n h
      | some v =>
        simp only [toPrimData, hd]
        rw [alookup_cons, if_neg hk]
        exact ih n h

theorem alookup_toPrimData_of_field (st : ObjState) :
    ∀ (fl : List (String × FieldSpec)),
      (fl.map Prod.fst).Nodup →
      ∀ (n : String) (f : FieldSpec), alookup fl n = some f →
      alookup (toPrimData st fl) n = (alookup st.data n).map f.toPrim := by
  intro fl
  induction fl with
  | nil =>
    intro _ n f h
    exact absurd h (by simp [alookup])
  | cons kg rest ih =>
    obtain ⟨k, g⟩ := kg
    intro hnd n f h
    rw [List.map_cons, List.nodup_cons] at hnd
    rw [alookup_cons] at h
    by_cases hk : k = n
    · rw [if_pos hk] at h
      have hgf : g = f := Option.some.inj h
      subst hgf
      subst hk
      cases hd : alookup st.data k with
      | none =>
        simp only [toPrimData, hd]
        rw [alookup_toPrimData_of_not_field st rest k
          ((alookup_eq_none_iff rest k).mpr hnd.1)]
        rfl
      | some v =>
        simp only [toPrimData, hd]
        rw [alookup_cons, if_pos rfl]
        rfl
    · rw [if_neg hk] at h
      cases hd : alookup st.data k with
      | none =>
        simp only [toPrimData, hd]
        exact ih hnd.2 n f h
      | some v =>
        simp only [toPrimData, hd]
        rw [alookup_cons, if_neg hk]
        exact ih hnd.2 n f h

theorem applyFields_roundtrip (c : ObjClass) (st : ObjState)
    (hndc : (c.fields.map Prod.fst).Nodup)
    (hrt : ∀ n f v, alookup c.fields n = some f →
      alookup st.data n = some v →
      (f.fromPrim (f.toPrim v)).bind f.coerce = Except.ok v) :
    ∀ (fs : List (String × FieldSpec)) (st0 : ObjState),
      (∀ p ∈ fs, alookup c.fields p.1 = some p.2) →
      ((fs.map Prod.fst).Nodup) →
      ∃ st1, applyFields c fs (toPrimData st c.fields) st0 = .ok st1 ∧
        st1.ctx = st0.ctx ∧
        ∀ n, alookup st1.data n =
          if (alookup fs n).isSome ∧ (alookup st.data n).isSome then
            alookup st.data n
          else alookup st0.data n := by
  intro fs
  induction fs with
  | nil =>
    intro st0 _ _
    exact ⟨st0, rfl, rfl, fun n => by simp [alookup]⟩
  | cons kf rest ih =>
    obtain ⟨k, f⟩ := kf
    intro st0 hsub hnd
    rw [List.map_cons, List.nodup_cons] at hnd
    have hkf : alookup c.fields k = some f :=
      hsub (k, f) (List.mem_cons_self _ _)
    have hsub' : ∀ p ∈ rest, alookup c.fields p.1 = some p.2 :=
      fun p hp => hsub p (List.mem_cons_of_mem _ hp)
    have hrestnone : alookup rest k = Option.none :=
      (alookup_eq_none_iff rest k).mpr hnd.1
    cases hdk : alookup st.data k with
    | none =>
      have henv : alookup (toPrimData st c.fields) k = Option.none := by
        rw [alookup_toPrimData_of_field st c.fields hndc k f hkf, hdk]
        rfl
      obtain ⟨st1, happ, hctx, hdata⟩ := ih st0 hsub' hnd.2
      refine ⟨st1, ?_, hctx, ?_⟩
      · simp only [applyFields, henv]
        exact happ
      · intro n
        rw [hdata n]
        by_cases hn : k = n
        · subst hn
          simp [alookup_cons, hdk, hrestnone]
        · simp [alookup_cons, hn]
    | some v =>
      have henv : alookup (toPrimData st c.fields) k = some (f.toPrim v) := by
        rw [alookup_toPrimData_of_field st c.fields hndc k f hkf, hdk]
        rfl
      have hb := hrt k f v hkf hdk
      cases hfp : f.fromPrim (f.toPrim v) with
      | error e =>
        rw [hfp] at hb
        exact absurd hb (by simp [Except.bind])
      | ok w =>
        rw [hfp] at hb
        have hco : f.coerce w = .ok v := by simpa [Except.bind] using hb
        obtain ⟨st1, happ, hctx, hdata⟩ :=
          ih ⟨aset st0.data k v, addChanged k st0.changed, st0.ctx⟩ hsub' hnd.2
        refine ⟨st1, ?_, by rw [hctx], ?_⟩
        · simp only [applyFields, henv, hfp, obj_set_ok c k w st0 f v hkf hco]
          exact happ
        · intro n
          rw [hdata n]
          by_cases hn : k = n
          · subst hn
            simp [alookup_cons, hdk, hrestnone, alookup_aset]
          · have ha : alookup (aset st0.data k v) n = alookup st0.data n := by
              rw [alookup_aset, if_neg hn]
            simp [alookup_cons, hn, ha]

end Nova

namespace Nova

/-- C5: `to_primitive` emits a data map whose keys are exactly the fields
currently set on the instance (an unset field is omitted, never emitted as
null), each through its field's serializer; the changes key is present iff
`_changed_fields` is non-empty, in which case it is exactly that set. -/
theorem C5_to_primitive (c : ObjClass) (st : ObjState)
    (hnd : (c.fields.map Prod.fst).Nodup)
    (hdk : ∀ n, (alookup st.data n).isSome = true → isField c n = true) :
    (∀ n, (alookup (to_primitive c st).data n).isSome = true ↔
       (alookup st.data n).isSome = true) ∧
    (∀ n f v, alookup c.fields n = some f → alookup st.data n = some v →
       alookup (to_primitive c st).data n = some (f.toPrim v)) ∧
    ((to_primitive c st).changes =
       if st.changed.isEmpty then Option.none else some st.changed) ∧
    (((to_primitive c st).changes).isSome = true ↔ st.changed ≠ []) := by
  refine ⟨?_, ?_, rfl, ?_⟩
  · intro n
    cases hf : alookup c.fields n with
    | none =>
      have h1 : alookup (to_primitive c st).data n = Option.none :=
        alookup_toPrimData_of_not_field st c.fields n hf
      rw [h1]
      constructor
      · intro h
        exact absurd h (by simp)
      · intro h
        have := hdk n h
        rw [isField, hf] at this
        exact absurd this (by simp)
    | some f =>
      have h1 := alookup_toPrimData_of_field st c.fields hnd n f hf
      show (alookup (toPrimData st c.fields) n).isSome = true ↔ _
      rw [h1]
      cases alookup st.data n <;> simp
  · intro n f v hf hv
    have h1 := alookup_toPrimData_of_field st c.fields hnd n f hf
    show alookup (toPrimData st c.fields) n = _
    rw [h1, hv]
    rfl
  · show (if st.changed.isEmpty then Option.none
        else some st.changed).isSome = true ↔ st.changed ≠ []
    cases hch : st.changed with
    | nil => simp
    | cons a l => simp

/-- Witness for C5: a `Widget` with `count` set to 5 and marked changed
dehydrates with exactly that field in the data map and a changes list of
exactly `count`. -/
theorem C5_witness :
    alookup (to_primitive WidgetCls
      ⟨[("count", .int 5)], ["count"], Option.none⟩).data "count" =
      some (.int 5) ∧
    (to_primitive WidgetCls
      ⟨[("count", .int 5)], ["count"], Option.none⟩).changes =
      some ["count"] ∧
    alookup (to_primitive WidgetCls
      ⟨[], ["count"], Option.none⟩).data "count" = Option.none := by
  have h := C5_to_primitive WidgetCls
    ⟨[("count", .int 5)], ["count"], Option.none⟩
    (by decide)
    (by
      intro n hn
      rw [alookup_cons] at hn
      by_cases hc : "count" = n
      · rw [isField, ← hc]
        rfl
      · rw [if_neg hc] at hn
        exact absurd hn (by simp [alookup]))
  refine ⟨?_, ?_, ?_⟩
  · exact h.2.1 "count" (mkFS pyInt) (.int 5) rfl rfl
  · exact (h.2.2.1).trans (by rfl)
  · have h2 := C5_to_primitive WidgetCls ⟨[], ["count"], Option.none⟩
      (by decide) (by intro n hn; exact absurd hn (by simp [alookup]))
    have h3 := (h2.1 "count")
    cases hl : alookup (to_primitive WidgetCls
        ⟨[], ["count"], Option.none⟩).data "count" with
    | none => rfl
    | some v =>
      rw [hl] at h3
      exact absurd (h3.mp (by simp)) (by simp [alookup])

/-- C4: after hydration, `_changed_fields` is exactly the envelope's changes
list filtered to the declared fields of the resolved type; with no changes
key it is empty, the dirty marks made while applying the data fields being
overwritten. -/
theorem C4_hydration_changes (registry : List ObjClass) (p : Envelope)
    (c : ObjClass) (st' : ObjState)
    (h : from_primitive registry p = .ok (c, st')) :
    (∀ n, n ∈ st'.changed ↔
       (n ∈ p.changes.getD [] ∧ isField c n = true)) ∧
    (p.changes = Option.none → st'.changed = []) := by
  unfold from_primitive at h
  rcases hcf : class_from_name registry p.name p.version with e | c0 <;>
    rw [hcf] at h
  · exact absurd h (by simp)
  rcases hap : applyFields c0 c0.fields p.data initState with e | st1 <;>
    simp only [hap] at h
  · exact absurd h (by simp)
  injection h with h2
  injection h2 with hc hst
  subst hc
  subst hst
  constructor
  · intro n
    show n ∈ dedupKeep ((p.changes.getD []).filter (isField c0)) ↔ _
    rw [mem_dedupKeep, List.mem_filter]
  · intro hn
    show dedupKeep ((p.changes.getD []).filter (isField c0)) = []
    rw [hn]
    rfl

/-- Witness for C4 — the spec's scenario: hydrating
`{"name":"Widget","version":"1.0","data":{"count":"5"}}` yields `count == 5`
(an integer, coerced from the string) and an empty changed-set, and that
empty changed-set satisfies the filtered-changes characterization. -/
theorem C4_witness :
    from_primitive [WidgetCls]
      ⟨"Widget", "1.0", [("count", .str "5")], Option.none⟩ =
      .ok (WidgetCls, ⟨[("count", .int 5)], [], Option.none⟩) ∧
    (∀ n, n ∈ (⟨[("count", .int 5)], [], Option.none⟩ : ObjState).changed ↔
      (n ∈ (Option.none : Option (List String)).getD [] ∧
        isField WidgetCls n = true)) := by
  have h := C4_hydration_changes [WidgetCls]
    ⟨"Widget", "1.0", [("count", .str "5")], Option.none⟩
    WidgetCls ⟨[("count", .int 5)], [], Option.none⟩ rfl
  exact ⟨rfl, h.1⟩

end Nova

namespace Nova

theorem alookup_of_mem {β : Type} :
    ∀ (l : List (String × β)), (l.map Prod.fst).Nodup →
      ∀ (k : String) (v : β), (k, v) ∈ l → alookup l k = some v := by
  intro l
  induction l with
  | nil =>
    intro _ k v hm
    cases hm
  | cons ab rest ih =>
    obtain ⟨a, b⟩ := ab
    intro hnd k v hm
    rw [List.map_cons, List.nodup_cons] at hnd
    rw [alookup_cons]
    cases hm with
    | head =>
      rw [if_pos rfl]
    | tail _ hm' =>
      by_cases ha : a = k
      · subst ha
        exact absurd (List.mem_map_of_mem Prod.fst hm') hnd.1
      · rw [if_neg ha]
        exact ih hnd.2 k v hm'

/-- C1 (amended): hydrating the envelope produced by dehydrating an instance
reproduces the same set of set-fields with equal values and the same
changed-set, provided the registry resolves the class back to itself, the
changed-set names declared fields, and every stored value survives its
field's serialize–deserialize–recoerce chain (`hrt`) — the last condition is
what the date-time fields violate for sub-second timestamps, as the
counterexample shows. -/
theorem C1_roundtrip_amended (registry : List ObjClass) (c : ObjClass)
    (st : ObjState)
    (hre : class_from_name registry c.name c.version = .ok c)
    (hnd : (c.fields.map Prod.fst).Nodup)
    (hch : ∀ n ∈ st.changed, isField c n = true)
    (hchnd : st.changed.Nodup)
    (hdk : ∀ n, (alookup st.data n).isSome = true → isField c n = true)
    (hrt : ∀ n f v, alookup c.fields n = some f →
      alookup st.data n = some v →
      (f.fromPrim (f.toPrim v)).bind f.coerce = Except.ok v) :
    ∃ st', from_primitive registry (to_primitive c st) = .ok (c, st') ∧
      (∀ n, alookup st'.data n = alookup st.data n) ∧
      st'.changed = st.changed := by
  obtain ⟨st1, happ, hctx, hdataf⟩ :=
    applyFields_roundtrip c st hnd hrt c.fields initState
      (fun p hp => alookup_of_mem c.fields hnd p.1 p.2 hp) hnd
  simp only [from_primitive, to_primitive, hre, happ]
  refine ⟨_, rfl, ?_, ?_⟩
  · intro n
    show alookup st1.data n = _
    rw [hdataf n]
    cases hsd : alookup st.data n with
    | some v =>
      have hf := hdk n (by rw [hsd]; rfl)
      rw [isField] at hf
      rw [if_pos ⟨hf, rfl⟩]
    | none =>
      rw [if_neg (fun hand => by simp at hand)]
      rfl
  · show dedupKeep (((if st.changed.isEmpty then Option.none
        else some st.changed).getD []).filter (isField c)) = st.changed
    cases hchl : st.changed with
    | nil => rfl
    | cons a l =>
      rw [← hchl]
      have hne : st.changed.isEmpty = false := by rw [hchl]; rfl
      rw [hne]
      show dedupKeep (st.changed.filter (isField c)) = st.changed
      rw [filter_eq_self_of_forall st.changed (isField c) hch,
        dedupKeep_eq_self st.changed hchnd]

/-- C1 counterexample: an `Instance` whose `launched_at` carries sub-second
precision (microsecond = 1, set through the normal property setter) does not
round-trip — `from_primitive(to_primitive(o))` yields `launched_at` with the
microseconds dropped, so the hydrated field value differs from the
original.  The claim's unconditional round-trip is therefore false on the
code. -/
theorem C1_roundtrip_counterexample :
    (obj_set InstanceCls "launched_at"
        (.dt ⟨1955, 11, 5, 0, 0, 0, 1, some 0⟩) initState).1 =
      ⟨[("launched_at", .dt ⟨1955, 11, 5, 0, 0, 0, 1, some 0⟩)],
       ["launched_at"], Option.none⟩ ∧
    from_primitive [InstanceCls]
      (to_primitive InstanceCls
        ⟨[("launched_at", .dt ⟨1955, 11, 5, 0, 0, 0, 1, some 0⟩)],
         ["launched_at"], Option.none⟩) =
      .ok (InstanceCls,
        ⟨[("launched_at", .dt ⟨1955, 11, 5, 0, 0, 0, 0, some 0⟩)],
         ["launched_at"], Option.none⟩) ∧
    alookup (⟨[("launched_at", .dt ⟨1955, 11, 5, 0, 0, 0, 0, some 0⟩)],
         ["launched_at"], Option.none⟩ : ObjState).data "launched_at" ≠
      alookup (⟨[("launched_at", .dt ⟨1955, 11, 5, 0, 0, 0, 1, some 0⟩)],
         ["launched_at"], Option.none⟩ : ObjState).data "launched_at" := by
  refine ⟨rfl, rfl, ?_⟩
  show some (PyVal.dt ⟨1955, 11, 5, 0, 0, 0, 0, some 0⟩) ≠
    some (PyVal.dt ⟨1955, 11, 5, 0, 0, 0, 1, some 0⟩)
  intro h
  injection h with h1
  injection h1 with h2
  exact absurd h2 (by decide)

/-- Witness for the amended C1: a `Widget` with `count = 5` set and marked
changed round-trips exactly. -/
theorem C1_roundtrip_witness :
    ∃ st', from_primitive [WidgetCls]
      (to_primitive WidgetCls
        ⟨[("count", .int 5)], ["count"], Option.none⟩) =
      .ok (WidgetCls, st') ∧
      (∀ n, alookup st'.data n =
        alookup (⟨[("count", .int 5)], ["count"],
          Option.none⟩ : ObjState).data n) ∧
      st'.changed = ["count"] := by
  refine C1_roundtrip_amended [WidgetCls] WidgetCls
    ⟨[("count", .int 5)], ["count"], Option.none⟩ rfl (by decide)
    ?_ (by decide) ?_ ?_
  · intro n hn
    cases hn with
    | head => rfl
    | tail _ h => cases h
  · intro n hn
    rw [alookup_cons] at hn
    by_cases hc : "count" = n
    · rw [isField, ← hc]
      rfl
    · rw [if_neg hc] at hn
      exact absurd hn (by simp [alookup])
  · intro n f v hf hv
    by_cases hc : "count" = n
    · subst hc
      obtain rfl := Option.some.inj (show some (mkFS pyInt) = some f from hf)
      obtain rfl := Option.some.inj (show some (PyVal.int 5) = some v from hv)
      rfl
    · have hnone : alookup WidgetCls.fields n = Option.none := by
        show alookup [("count", mkFS pyInt)] n = _
        rw [alookup_cons, if_neg hc]
        rfl
      rw [hnone] at hf
      exact absurd hf (by simp)

end Nova

namespace Nova

/-! ### Indirection-wrapper lemmas -/

theorem reset_changes_ctx (st : ObjState) (x : Option (List String)) :
    (reset_changes st x).ctx = st.ctx := by
  unfold reset_changes
  cases x with
  | none => rfl
  | some fs => cases fs with
    | nil => rfl
    | cons a l => rfl

theorem reset_changes_data (st : ObjState) (x : Option (List String)) :
    (reset_changes st x).data = st.data := by
  unfold reset_changes
  cases x with
  | none => rfl
  | some fs => cases fs with
    | nil => rfl
    | cons a l => rfl

theorem reset_changes_changed_eq (s1 s2 : ObjState)
    (x : Option (List String)) (h : s1.changed = s2.changed) :
    (reset_changes s1 x).changed = (reset_changes s2 x).changed := by
  unfold reset_changes
  cases x with
  | none => rfl
  | some fs => cases fs with
    | nil => rfl
    | cons a l => simpa using congrArg (List.filter _) h

theorem applyUpdates_ok (c : ObjClass) :
    ∀ (ups : List (String × PyVal)) (st0 : ObjState),
      ((ups.map Prod.fst).Nodup) →
      (∀ n v fs, (n, v) ∈ ups → alookup c.fields n = some fs →
        isOkE (fs.coerce v) = true) →
      ∃ st1, applyUpdates c ups st0 = .ok st1 ∧ st1.ctx = st0.ctx ∧
        (∀ n, n ∉ ups.map Prod.fst →
          alookup st1.data n = alookup st0.data n) ∧
        (∀ n v fs, (n, v) ∈ ups → alookup c.fields n = some fs →
          ∃ w, fs.coerce v = .ok w ∧ alookup st1.data n = some w) ∧
        (∀ n, alookup c.fields n = Option.none →
          alookup st1.data n = alookup st0.data n) ∧
        (∀ n, n ∈ st1.changed ↔
          (n ∈ st0.changed ∨ (n ∈ ups.map Prod.fst ∧ isField c n = true))) := by
  intro ups
  induction ups with
  | nil =>
    intro st0 _ _
    exact ⟨st0, rfl, rfl, fun n _ => rfl,
      fun n v fs hm => absurd hm (List.not_mem_nil _),
      fun n _ => rfl, fun n => by simp⟩
  | cons kv rest ih =>
    obtain ⟨k, v⟩ := kv
    intro st0 hnd hok
    rw [List.map_cons, List.nodup_cons] at hnd
    have hok' : ∀ n v' fs, (n, v') ∈ rest → alookup c.fields n = some fs →
        isOkE (fs.coerce v') = true :=
      fun n v' fs hm hf => hok n v' fs (List.mem_cons_of_mem _ hm) hf
    cases hkf : alookup c.fields k with
    | some fs0 =>
      have hco := hok k v fs0 (List.mem_cons_self _ _) hkf
      cases hw : fs0.coerce v with
      | error e =>
        rw [hw] at hco
        exact absurd hco (by simp [isOkE])
      | ok w =>
        obtain ⟨st1, happ, hctx, hframe, happl, hundec, hchg⟩ :=
          ih ⟨aset st0.data k w, addChanged k st0.changed, st0.ctx⟩ hnd.2 hok'
        refine ⟨st1, ?_, hctx, ?_, ?_, ?_, ?_⟩
        · simp only [applyUpdates, obj_set_ok c k v st0 fs0 w hkf hw]
          exact happ
        · intro n hn
          rw [List.map_cons, List.mem_cons, not_or] at hn
          rw [hframe n hn.2]
          show alookup (aset st0.data k w) n = _
          rw [alookup_aset, if_neg (fun he => hn.1 he.symm)]
        · intro n v' fs hm hf
          cases hm with
          | head =>
            obtain rfl : fs0 = fs := Option.some.inj (hkf ▸ hf)
            refine ⟨w, hw, ?_⟩
            rw [hframe k hnd.1]
            show alookup (aset st0.data k w) k = some w
            rw [alookup_aset, if_pos rfl]
          | tail _ hm' =>
            exact happl n v' fs hm' hf
        · intro n hf
          have hne : ¬k = n := fun he => by
            rw [he] at hkf
            rw [hkf] at hf
            exact Option.noConfusion hf
          rw [hundec n hf]
          show alookup (aset st0.data k w) n = _
          rw [alookup_aset, if_neg hne]
        · intro n
          rw [hchg n]
          show (n ∈ addChanged k st0.changed ∨ _) ↔ _
          rw [mem_addChanged, List.map_cons, List.mem_cons]
          have hfk : isField c k = true := by rw [isField, hkf]; rfl
          by_cases hn : n = k
          · subst hn
            simp [hfk]
          · simp [hn]
    | none =>
      obtain ⟨st1, happ, hctx, hframe, happl, hundec, hchg⟩ :=
        ih st0 hnd.2 hok'
      refine ⟨st1, ?_, hctx, ?_, ?_, hundec, ?_⟩
      · simp only [applyUpdates, obj_set, hkf]
        exact happ
      · intro n hn
        rw [List.map_cons, List.mem_cons, not_or] at hn
        exact hframe n hn.2
      · intro n v' fs hm hf
        cases hm with
        | head =>
          rw [hkf] at hf
          exact absurd hf (by simp)
        | tail _ hm' =>
          exact happl n v' fs hm' hf
      · intro n
        rw [hchg n, List.map_cons, List.mem_cons]
        have hfk : isField c k = false := by rw [isField, hkf]; rfl
        by_cases hn : n = k
        · subst hn
          simp [hfk]
        · simp [hn]

end Nova

namespace Nova

/-- C8 counterexample: with a dispatcher installed that returns an *empty*
`fieldUpdates` map, an instance-level wrapped call does not leave the rest of
`changedFields` intact — `reset_changes` receives the empty (falsy) key list
and clears the *whole* changed set: `count` was dirty before the call, is
named by no field update, and is gone afterwards.  This contradicts the
claim's "leaving every other member of changedFields unchanged". -/
theorem C8_magic_counterexample :
    magic WidgetCls "save" [] (fun _ _ s => .ok (s, .none))
      (some (fun _ _ _ _ _ => ([], .str "saved")))
      ⟨[("count", .int 1)], ["count"], Option.none⟩ (some 7) =
      .ok (⟨[("count", .int 1)], [], Option.none⟩, .str "saved") ∧
    "count" ∈ (⟨[("count", .int 1)], ["count"],
      Option.none⟩ : ObjState).changed ∧
    ("count" : String) ∉ (([] : List (String × PyVal)).map Prod.fst) := by
  exact ⟨rfl, List.mem_cons_self _ _, List.not_mem_nil _⟩

/-- C8 (amended): with a dispatcher installed, an instance-level wrapped
call never executes the wrapped local logic (the result is the same for any
two local bodies), applies exactly the returned `fieldUpdates` through the
normal setters, returns the dispatcher's result, and — when `fieldUpdates`
is non-empty — removes exactly those field names from `changedFields`,
leaving every other member and every other field untouched; when
`fieldUpdates` is empty, however, the whole `changedFields` set is cleared
(the empty key list is falsy in `reset_changes`). -/
theorem C8_magic_remote (c : ObjClass) (fnName : String)
    (kwargs : List (String × PyVal))
    (f g : Ctx → List (String × PyVal) → ObjState →
      Except NovaErr (ObjState × PyVal))
    (api : Dispatcher) (st : ObjState) (cx : Ctx)
    (updates : List (String × PyVal)) (result : PyVal)
    (hapi : api cx (to_primitive c st) fnName c.version kwargs =
      (updates, result))
    (hnd : (updates.map Prod.fst).Nodup)
    (hok : ∀ n v fs, (n, v) ∈ updates → alookup c.fields n = some fs →
      isOkE (fs.coerce v) = true) :
    magic c fnName kwargs f (some api) st (some cx) =
      magic c fnName kwargs g (some api) st (some cx) ∧
    ∃ st', magic c fnName kwargs f (some api) st (some cx) =
        .ok (st', result) ∧
      st'.ctx = st.ctx ∧
      (updates = [] → st'.changed = []) ∧
      (updates ≠ [] → ∀ n, n ∈ st'.changed ↔
        (n ∈ st.changed ∧ n ∉ updates.map Prod.fst)) ∧
      (∀ n, n ∉ updates.map Prod.fst →
        alookup st'.data n = alookup st.data n) ∧
      (∀ n v fs, (n, v) ∈ updates → alookup c.fields n = some fs →
        ∃ w, fs.coerce v = .ok w ∧ alookup st'.data n = some w) := by
  obtain ⟨st1, happ, hctx, hframe, happl, hundec, hchg⟩ :=
    applyUpdates_ok c updates st hnd hok
  refine ⟨rfl, reset_changes st1 (some (updates.map Prod.fst)), ?_, ?_, ?_, ?_,
    ?_, ?_⟩
  · simp only [magic, hapi, happ]
  · rw [reset_changes_ctx, hctx]
  · intro hup
    subst hup
    rfl
  · intro hup n
    have hkeys : (updates.map Prod.fst).isEmpty = false := by
      cases updates with
      | nil => exact absurd rfl hup
      | cons a l => rfl
    have hres : (reset_changes st1 (some (updates.map Prod.fst))).changed =
        List.filter (fun m => decide (m ∉ updates.map Prod.fst))
          st1.changed := by
      show (if (updates.map Prod.fst).isEmpty = true
          then ({ st1 with changed := [] } : ObjState)
          else { st1 with
            changed := List.filter
              (fun m => decide (m ∉ updates.map Prod.fst))
              st1.changed }).changed = _
      rw [hkeys]
      simp
    rw [hres, List.mem_filter, decide_eq_true_eq, hchg n]
    constructor
    · rintro ⟨h1 | ⟨h1, _⟩, h2⟩
      · exact ⟨h1, h2⟩
      · exact absurd h1 h2
    · rintro ⟨h1, h2⟩
      exact ⟨Or.inl h1, h2⟩
  · intro n hn
    rw [reset_changes_data]
    exact hframe n hn
  · intro n v fs hm hf
    obtain ⟨w, hw, hl⟩ := happl n v fs hm hf
    refine ⟨w, hw, ?_⟩
    rw [reset_changes_data]
    exact hl
  
/-- Witness for the amended C8: a dispatcher returning
`fieldUpdates = {count: 2}` and result `"r"` updates `count` through the
setter, clears exactly `count` from the changed set, and returns `"r"`. -/
theorem C8_magic_remote_witness :
    magic WidgetCls "save" []
        (fun _ _ s => .ok (s, .none))
        (some (fun _ _ _ _ _ => ([("count", .int 2)], .str "r")))
        ⟨[("count", .int 1)], ["count"], Option.none⟩ (some 7) =
      magic WidgetCls "save" []
        (fun _ _ s => .ok (s, .str "local"))
        (some (fun _ _ _ _ _ => ([("count", .int 2)], .str "r")))
        ⟨[("count", .int 1)], ["count"], Option.none⟩ (some 7) ∧
    ∃ st', magic WidgetCls "save" []
        (fun _ _ s => .ok (s, .none))
        (some (fun _ _ _ _ _ => ([("count", .int 2)], .str "r")))
        ⟨[("count", .int 1)], ["count"], Option.none⟩ (some 7) =
        .ok (st', .str "r") ∧
      st'.ctx = Option.none ∧
      ([("count", (.int 2 : PyVal))] = [] → st'.changed = []) ∧
      ([("count", (.int 2 : PyVal))] ≠ [] → ∀ n, n ∈ st'.changed ↔
        (n ∈ ["count"] ∧
          n ∉ [("count", (.int 2 : PyVal))].map Prod.fst)) ∧
      (∀ n, n ∉ [("count", (.int 2 : PyVal))].map Prod.fst →
        alookup st'.data n =
          alookup [("count", (.int 1 : PyVal))] n) ∧
      (∀ n v fs, (n, v) ∈ [("count", (.int 2 : PyVal))] →
        alookup WidgetCls.fields n = some fs →
        ∃ w, fs.coerce v = .ok w ∧ alookup st'.data n = some w) := by
  exact C8_magic_remote WidgetCls "save" []
    (fun _ _ s => .ok (s, .none)) (fun _ _ s => .ok (s, .str "local"))
    (fun _ _ _ _ _ => ([("count", .int 2)], .str "r"))
    ⟨[("count", .int 1)], ["count"], Option.none⟩ 7
    [("count", .int 2)] (.str "r") rfl (by decide)
    (by
      intro n v fs hm hf
      cases hm with
      | head =>
        obtain rfl := Option.some.inj
          (show some (mkFS pyInt) = some fs from hf)
        rfl
      | tail _ h => cases h)

end Nova

namespace Nova

theorem applyUpdates_ctx_map (c : ObjClass) :
    ∀ (ups : List (String × PyVal)) (d : List (String × PyVal))
      (ch : List String) (x x' : Option Ctx),
      (applyUpdates c ups ⟨d, ch, x⟩).map (fun s => (s.data, s.changed)) =
        (applyUpdates c ups ⟨d, ch, x'⟩).map (fun s => (s.data, s.changed)) := by
  intro ups
  induction ups with
  | nil =>
    intro d ch x x'
    rfl
  | cons kv rest ih =>
    obtain ⟨k, v⟩ := kv
    intro d ch x x'
    cases hkf : alookup c.fields k with
    | none =>
      simp only [applyUpdates, obj_set, hkf]
      exact ih d ch x x'
    | some fs =>
      cases hw : fs.coerce v with
      | error e =>
        simp only [applyUpdates, obj_set, hkf, hw]
      | ok w =>
        simp only [applyUpdates, obj_set, hkf, hw]
        exact ih (aset d k w) (addChanged k ch) x x'

theorem toPrimData_data_eq (s1 s2 : ObjState) (h : s1.data = s2.data) :
    ∀ fl, toPrimData s1 fl = toPrimData s2 fl := by
  intro fl
  induction fl with
  | nil => rfl
  | cons kf rest ih =>
    obtain ⟨k, f⟩ := kf
    simp only [toPrimData, h, ih]

theorem magic_none_ctx (c : ObjClass) (fnName : String)
    (kwargs : List (String × PyVal))
    (f : Ctx → List (String × PyVal) → ObjState →
      Except NovaErr (ObjState × PyVal))
    (ind : Option Dispatcher) (st : ObjState) :
    magic c fnName kwargs f ind st Option.none =
      match st.ctx with
      | Option.none => .error (.orphanedObject fnName c.name)
      | some cx => magic c fnName kwargs f ind st (some cx) := by
  rcases hc : st.ctx with _ | cx <;> simp only [magic, hc]

theorem magic_dispatch (c : ObjClass) (fnName : String)
    (kwargs : List (String × PyVal))
    (f : Ctx → List (String × PyVal) → ObjState →
      Except NovaErr (ObjState × PyVal))
    (api : Dispatcher) (st : ObjState) (cx : Ctx) :
    magic c fnName kwargs f (some api) st (some cx) =
      match applyUpdates c
          (api cx (to_primitive c st) fnName c.version kwargs).1 st with
      | .error e => .error e
      | .ok st1 => .ok (reset_changes st1
          (some ((api cx (to_primitive c st) fnName c.version kwargs).1.map
            Prod.fst)),
          (api cx (to_primitive c st) fnName c.version kwargs).2) := rfl

/-- C9: the context used by an instance-level wrapped mutator call is the
explicitly supplied context when given (on the remote path the observable
behavior is independent of the stored back-reference), else the stored
back-reference context, and when both are unset the call fails with
`OrphanedObjectError` carrying the method name and object type, for *any*
wrapped body and *any* installed dispatcher — neither is invoked. -/
theorem C9_context_resolution (c : ObjClass) (fnName : String)
    (kwargs : List (String × PyVal))
    (f : Ctx → List (String × PyVal) → ObjState →
      Except NovaErr (ObjState × PyVal))
    (st : ObjState) :
    (∀ cx, magic c fnName kwargs f Option.none st (some cx) =
      f cx kwargs st) ∧
    (∀ (api : Dispatcher) (cx : Ctx) (cx' : Option Ctx),
      (magic c fnName kwargs f (some api) st (some cx)).map
          (fun r => (r.1.data, r.1.changed, r.2)) =
        (magic c fnName kwargs f (some api)
            ⟨st.data, st.changed, cx'⟩ (some cx)).map
          (fun r => (r.1.data, r.1.changed, r.2))) ∧
    (∀ (ind : Option Dispatcher) (cx : Ctx), st.ctx = some cx →
      magic c fnName kwargs f ind st Option.none =
        magic c fnName kwargs f ind st (some cx)) ∧
    (st.ctx = Option.none → ∀ (ind : Option Dispatcher),
      magic c fnName kwargs f ind st Option.none =
        .error (.orphanedObject fnName c.name)) := by
  refine ⟨fun cx => rfl, ?_, ?_, ?_⟩
  · intro api cx cx'
    rw [magic_dispatch c fnName kwargs f api st cx,
      magic_dispatch c fnName kwargs f api ⟨st.data, st.changed, cx'⟩ cx]
    have henv : to_primitive c (⟨st.data, st.changed, cx'⟩ : ObjState) =
        to_primitive c st := by
      unfold to_primitive
      rw [toPrimData_data_eq (⟨st.data, st.changed, cx'⟩ : ObjState) st rfl
        c.fields]
    rw [henv]
    have hmap := applyUpdates_ctx_map c
      (api cx (to_primitive c st) fnName c.version kwargs).1
      st.data st.changed st.ctx cx'
    have hst : (⟨st.data, st.changed, st.ctx⟩ : ObjState) = st := rfl
    rw [hst] at hmap
    rcases h1 : applyUpdates c
        (api cx (to_primitive c st) fnName c.version kwargs).1 st
      with e1 | s1 <;>
      rcases h2 : applyUpdates c
          (api cx (to_primitive c st) fnName c.version kwargs).1
          ⟨st.data, st.changed, cx'⟩
        with e2 | s2 <;>
      rw [h1, h2] at hmap <;>
      simp only [h1, h2, Except.map] at hmap ⊢
    · injection hmap with hmap'
      rw [hmap']
    · exact absurd hmap (by simp)
    · exact absurd hmap (by simp)
    · injection hmap with hmap'
      have hd : s1.data = s2.data := congrArg Prod.fst hmap'
      have hc2 : s1.changed = s2.changed := congrArg Prod.snd hmap'
      rw [reset_changes_data, reset_changes_data, hd,
        reset_changes_changed_eq s1 s2 _ hc2]
  · intro ind cx h
    rw [magic_none_ctx, h]
  · intro h ind
    rw [magic_none_ctx, h]

end Nova

namespace Nova

/-- Witness for C9: with no explicit context, a stored context of `3` is
used by the local body; with both unset the call is orphaned with the method
name (`save`) and the type name (`Widget`). -/
theorem C9_witness :
    magic WidgetCls "save" [] (fun cx _ s => .ok (s, .int (cx : Int)))
        Option.none ⟨[], [], some 3⟩ Option.none =
      .ok (⟨[], [], some 3⟩, .int 3) ∧
    magic WidgetCls "save" [] (fun cx _ s => .ok (s, .int (cx : Int)))
        Option.none ⟨[], [], Option.none⟩ Option.none =
      .error (.orphanedObject "save" "Widget") := by
  have h1 := C9_context_resolution WidgetCls "save" []
    (fun cx _ s => .ok (s, .int (cx : Int))) ⟨[], [], some 3⟩
  have h2 := C9_context_resolution WidgetCls "save" []
    (fun cx _ s => .ok (s, .int (cx : Int))) ⟨[], [], Option.none⟩
  constructor
  · exact (h1.2.2.1 Option.none 3 rfl).trans ((h1.1 3).trans rfl)
  · exact h2.2.2.2 rfl Option.none

end Nova

namespace Nova

/-! ### Format/parse inverse lemmas for the serializer models -/

theorem digit?_digitChar (k : Nat) (h : k < 10) :
    digit? (Nat.digitChar k) = some k := by
  interval_cases k <;> rfl

theorem expectChar_cons (c : Char) (r : List Char) :
    expectChar c (c :: r) = some r := by
  simp [expectChar]

theorem read2_pad2 (n : Nat) (h : n < 100) (rest : List Char) :
    read2 (pad2 n ++ rest) = some (n, rest) := by
  have h1 : n / 10 % 10 < 10 := Nat.mod_lt _ (by omega)
  have h2 : n % 10 < 10 := Nat.mod_lt _ (by omega)
  show read2 (Nat.digitChar (n / 10 % 10) :: Nat.digitChar (n % 10) :: rest) =
    some (n, rest)
  simp only [read2, digit?_digitChar _ h1, digit?_digitChar _ h2]
  have he : 10 * (n / 10 % 10) + n % 10 = n := by omega
  rw [he]

theorem read4_pad4 (n : Nat) (h : n < 10000) (rest : List Char) :
    read4 (pad4 n ++ rest) = some (n, rest) := by
  have h1 : n / 1000 % 10 < 10 := Nat.mod_lt _ (by omega)
  have h2 : n / 100 % 10 < 10 := Nat.mod_lt _ (by omega)
  have h3 : n / 10 % 10 < 10 := Nat.mod_lt _ (by omega)
  have h4 : n % 10 < 10 := Nat.mod_lt _ (by omega)
  show read4 (Nat.digitChar (n / 1000 % 10) :: Nat.digitChar (n / 100 % 10) ::
    Nat.digitChar (n / 10 % 10) :: Nat.digitChar (n % 10) :: rest) =
    some (n, rest)
  simp only [read4, digit?_digitChar _ h1, digit?_digitChar _ h2,
    digit?_digitChar _ h3, digit?_digitChar _ h4]
  have he : 1000 * (n / 1000 % 10) + 100 * (n / 100 % 10) +
      10 * (n / 10 % 10) + n % 10 = n := by omega
  rw [he]

theorem parse_isotime_isotime (d : PyDateTime) (hw : wfDT d = true)
    (hmu : d.microsecond = 0) (htz : d.tz = some 0) :
    parse_isotime (isotime d) = .ok d := by
  obtain ⟨y, mo, da, hh, mi, ss, mus, tz⟩ := d
  simp only at hmu htz
  subst hmu
  subst htz
  simp only [wfDT, Bool.and_eq_true, decide_eq_true_eq] at hw
  obtain ⟨⟨⟨⟨⟨⟨⟨⟨⟨hy1, hy2⟩, hmo1⟩, hmo2⟩, hda1⟩, hda2⟩, hhh⟩, hmi⟩, hss⟩, _⟩ := hw
  have hp : parseISOChars (isotimeChars ⟨y, mo, da, hh, mi, ss, 0, some 0⟩) =
      some ⟨y, mo, da, hh, mi, ss, 0, some 0⟩ := by
    show parseISOChars (pad4 y ++ '-' :: (pad2 mo ++ '-' :: (pad2 da ++
      'T' :: (pad2 hh ++ ':' :: (pad2 mi ++ ':' :: (pad2 ss ++ ['Z'])))))) = _
    simp only [parseISOChars, read4_pad4 y (by omega), expectChar_cons,
      read2_pad2 mo (by omega), read2_pad2 da (by omega),
      read2_pad2 hh (by omega), read2_pad2 mi (by omega),
      read2_pad2 ss (by omega),
      show parseFracTz ['Z'] = some (0, some 0) from rfl]
    rw [if_pos ⟨hy1, hmo1, hmo2, hda1, hda2, hhh, hmi, hss⟩]
  show (match parseISOChars
      (isotimeChars ⟨y, mo, da, hh, mi, ss, 0, some 0⟩) with
    | some d => (Except.ok d : Except NovaErr PyDateTime)
    | Option.none =>
      Except.error (NovaErr.valueError "Unable to parse date string"))
    = Except.ok (⟨y, mo, da, hh, mi, ss, 0, some 0⟩ : PyDateTime)
  rw [hp]

end Nova

namespace Nova

theorem digitChar_ne_dot (k : Nat) (h : k < 10) : Nat.digitChar k ≠ '.' := by
  interval_cases k <;> decide

theorem dot_not_mem_octChars (n : Nat) (hn : n ≤ 255) : '.' ∉ octChars n := by
  unfold octChars
  intro h
  split at h
  · next h1 =>
    rcases List.mem_cons.mp h with h2 | h2
    · exact digitChar_ne_dot n h1 h2.symm
    · exact List.not_mem_nil _ h2
  · next h1 =>
    split at h
    · next h2 =>
      rcases List.mem_cons.mp h with h3 | h3
      · exact digitChar_ne_dot _ (by omega) h3.symm
      · rcases List.mem_cons.mp h3 with h4 | h4
        · exact digitChar_ne_dot _ (by omega) h4.symm
        · exact List.not_mem_nil _ h4
    · next h2 =>
      rcases List.mem_cons.mp h with h3 | h3
      · exact digitChar_ne_dot _ (by omega) h3.symm
      · rcases List.mem_cons.mp h3 with h4 | h4
        · exact digitChar_ne_dot _ (by omega) h4.symm
        · rcases List.mem_cons.mp h4 with h5 | h5
          · exact digitChar_ne_dot _ (by omega) h5.symm
          · exact List.not_mem_nil _ h5

theorem readDigits_octChars (n : Nat) (h : n ≤ 255) :
    readDigits (octChars n) = some n := by
  unfold octChars
  split
  · next h1 =>
    simp only [readDigits, readDigitsAux, digit?_digitChar n h1]
    rw [Nat.mul_zero, Nat.zero_add]
  · next h1 =>
    split
    · next h2 =>
      have ha : n / 10 < 10 := by omega
      have hb : n % 10 < 10 := by omega
      simp only [readDigits, readDigitsAux, digit?_digitChar _ ha,
        digit?_digitChar _ hb]
      exact congrArg some (by omega)
    · next h2 =>
      have ha : n / 100 < 10 := by omega
      have hb : n / 10 % 10 < 10 := by omega
      have hc : n % 10 < 10 := by omega
      simp only [readDigits, readDigitsAux, digit?_digitChar _ ha,
        digit?_digitChar _ hb, digit?_digitChar _ hc]
      exact congrArg some (by omega)

theorem splitDot_no_dot : ∀ (l : List Char), '.' ∉ l →
    splitDotChars l = [l] := by
  intro l
  induction l with
  | nil => intro _; rfl
  | cons c r ih =>
    intro h
    rw [List.mem_cons, not_or] at h
    rw [splitDotChars, if_neg (fun he => h.1 he.symm), ih h.2]

theorem splitDot_append : ∀ (l r : List Char), '.' ∉ l →
    splitDotChars (l ++ '.' :: r) = l :: splitDotChars r := by
  intro l
  induction l with
  | nil =>
    intro r _
    show splitDotChars ('.' :: r) = [] :: splitDotChars r
    rw [splitDotChars, if_pos rfl]
  | cons c l' ih =>
    intro r h
    rw [List.mem_cons, not_or] at h
    show splitDotChars (c :: (l' ++ '.' :: r)) = _
    rw [splitDotChars, if_neg (fun he => h.1 he.symm), ih r h.2]

theorem parseIPv4_formatIP (o1 o2 o3 o4 : Nat)
    (h : wfIP (.v4 o1 o2 o3 o4) = true) :
    parseIPv4 (formatIPChars (.v4 o1 o2 o3 o4)) = some (.v4 o1 o2 o3 o4) := by
  simp only [wfIP, Bool.and_eq_true, decide_eq_true_eq] at h
  obtain ⟨⟨⟨h1, h2⟩, h3⟩, h4⟩ := h
  show parseIPv4 (octChars o1 ++ '.' :: (octChars o2 ++ '.' ::
    (octChars o3 ++ '.' :: octChars o4))) = _
  unfold parseIPv4
  rw [splitDot_append _ _ (dot_not_mem_octChars o1 h1),
    splitDot_append _ _ (dot_not_mem_octChars o2 h2),
    splitDot_append _ _ (dot_not_mem_octChars o3 h3),
    splitDot_no_dot _ (dot_not_mem_octChars o4 h4)]
  simp only [List.map_cons, List.map_nil, readDigits_octChars o1 h1,
    readDigits_octChars o2 h2, readDigits_octChars o3 h3,
    readDigits_octChars o4 h4]
  rw [if_pos ⟨h1, h2, h3, h4⟩]

end Nova

namespace Nova

theorem identity_serializers_roundtrip (f : fields.Field) (attr : String)
    (v : PyVal)
    (hto : f.rawToPrim = fun w => Except.ok w)
    (hfrom : f.rawFromPrim = fun w => Except.ok w)
    (hok : isOkE (f.coerce attr v) = true) :
    (f.to_primitive attr v).bind (f.from_primitive attr) = .ok v := by
  cases v with
  | none =>
    cases hn : f.nullable with
    | true =>
      simp [fields.Field.to_primitive, fields.Field.from_primitive,
        fields.enforce_nullable, hn, Except.bind]
    | false =>
      rw [show f.coerce attr .none = .error (.fieldRequired attr) by
        simp [fields.Field.coerce, fields.enforce_nullable, hn]] at hok
      exact absurd hok (by simp [isOkE])
  | int n =>
    simp [fields.Field.to_primitive, fields.Field.from_primitive,
      fields.enforce_nullable, hto, hfrom, Except.bind]
  | str s =>
    simp [fields.Field.to_primitive, fields.Field.from_primitive,
      fields.enforce_nullable, hto, hfrom, Except.bind]
  | bool b =>
    simp [fields.Field.to_primitive, fields.Field.from_primitive,
      fields.enforce_nullable, hto, hfrom, Except.bind]
  | dt d =>
    simp [fields.Field.to_primitive, fields.Field.from_primitive,
      fields.enforce_nullable, hto, hfrom, Except.bind]
  | ip a =>
    simp [fields.Field.to_primitive, fields.Field.from_primitive,
      fields.enforce_nullable, hto, hfrom, Except.bind]
  | dict l =>
    simp [fields.Field.to_primitive, fields.Field.from_primitive,
      fields.enforce_nullable, hto, hfrom, Except.bind]
  | list l =>
    simp [fields.Field.to_primitive, fields.Field.from_primitive,
      fields.enforce_nullable, hto, hfrom, Except.bind]

/-- C6 counterexample: the date-time field type accepts (and returns
unchanged) a UTC datetime with microsecond = 1, yet
`fromPrimitive(toPrimitive(v))` returns the datetime with microsecond 0 —
`toPrimitive`/`fromPrimitive` are not inverses on every value `coerce`
accepts. -/
theorem C6_roundtrip_counterexample :
    (fields.DateTimeField false).coerce "launched_at"
        (.dt ⟨1955, 11, 5, 0, 0, 0, 1, some 0⟩) =
      .ok (.dt ⟨1955, 11, 5, 0, 0, 0, 1, some 0⟩) ∧
    ((fields.DateTimeField false).to_primitive "launched_at"
        (.dt ⟨1955, 11, 5, 0, 0, 0, 1, some 0⟩)).bind
      ((fields.DateTimeField false).from_primitive "launched_at") =
      .ok (.dt ⟨1955, 11, 5, 0, 0, 0, 0, some 0⟩) ∧
    PyVal.dt ⟨1955, 11, 5, 0, 0, 0, 0, some 0⟩ ≠
      PyVal.dt ⟨1955, 11, 5, 0, 0, 0, 1, some 0⟩ := by
  refine ⟨rfl, rfl, ?_⟩
  intro h
  injection h with h1
  exact absurd h1 (by decide)

end Nova

namespace Nova

/-! ### Format/parse inverse lemmas for the version-6 address model -/

theorem hexDigit?_digitChar (k : Nat) (h : k < 16) :
    hexDigit? (Nat.digitChar k) = some k := by
  interval_cases k <;> rfl

theorem digitChar_ne_colon (k : Nat) (h : k < 16) :
    Nat.digitChar k ≠ ':' := by
  interval_cases k <;> decide

theorem hexChars_ne_nil (n : Nat) : hexChars n ≠ [] := by
  unfold hexChars
  split
  · exact List.cons_ne_nil _ _
  · split
    · exact List.cons_ne_nil _ _
    · split
      · exact List.cons_ne_nil _ _
      · exact List.cons_ne_nil _ _

theorem colon_not_mem_hexChars (n : Nat) (hn : n < 65536) :
    ':' ∉ hexChars n := by
  unfold hexChars
  intro h
  split at h
  · next h1 =>
    rcases List.mem_cons.mp h with h2 | h2
    · exact digitChar_ne_colon n h1 h2.symm
    · exact List.not_mem_nil _ h2
  · next h1 =>
    split at h
    · next h2 =>
      rcases List.mem_cons.mp h with h3 | h3
      · exact digitChar_ne_colon _ (by omega) h3.symm
      · rcases List.mem_cons.mp h3 with h4 | h4
        · exact digitChar_ne_colon _ (by omega) h4.symm
        · exact List.not_mem_nil _ h4
    · next h2 =>
      split at h
      · next h3 =>
        rcases List.mem_cons.mp h with h4 | h4
        · exact digitChar_ne_colon _ (by omega) h4.symm
        · rcases List.mem_cons.mp h4 with h5 | h5
          · exact digitChar_ne_colon _ (by omega) h5.symm
          · rcases List.mem_cons.mp h5 with h6 | h6
            · exact digitChar_ne_colon _ (by omega) h6.symm
            · exact List.not_mem_nil _ h6
      · next h3 =>
        rcases List.mem_cons.mp h with h4 | h4
        · exact digitChar_ne_colon _ (by omega) h4.symm
        · rcases List.mem_cons.mp h4 with h5 | h5
          · exact digitChar_ne_colon _ (by omega) h5.symm
          · rcases List.mem_cons.mp h5 with h6 | h6
            · exact digitChar_ne_colon _ (by omega) h6.symm
            · rcases List.mem_cons.mp h6 with h7 | h7
              · exact digitChar_ne_colon _ (by omega) h7.symm
              · exact List.not_mem_nil _ h7

theorem readHex_hexChars (n : Nat) (h : n < 65536) :
    readHex (hexChars n) = some n := by
  unfold hexChars
  split
  · next h1 =>
    simp only [readHex, readHexAux, hexDigit?_digitChar n h1]
    rw [Nat.mul_zero, Nat.zero_add]
  · next h1 =>
    split
    · next h2 =>
      have ha : n / 16 < 16 := by omega
      have hb : n % 16 < 16 := by omega
      simp only [readHex, readHexAux, hexDigit?_digitChar _ ha,
        hexDigit?_digitChar _ hb]
      exact congrArg some (by omega)
    · next h2 =>
      split
      · next h3 =>
        have ha : n / 256 < 16 := by omega
        have hb : n / 16 % 16 < 16 := by omega
        have hc : n % 16 < 16 := by omega
        simp only [readHex, readHexAux, hexDigit?_digitChar _ ha,
          hexDigit?_digitChar _ hb, hexDigit?_digitChar _ hc]
        exact congrArg some (by omega)
      · next h3 =>
        have ha : n / 4096 < 16 := by omega
        have hb : n / 256 % 16 < 16 := by omega
        have hc : n / 16 % 16 < 16 := by omega
        have hd : n % 16 < 16 := by omega
        simp only [readHex, readHexAux, hexDigit?_digitChar _ ha,
          hexDigit?_digitChar _ hb, hexDigit?_digitChar _ hc,
          hexDigit?_digitChar _ hd]
        exact congrArg some (by omega)

end Nova

namespace Nova

theorem splitColon_no_colon : ∀ (l : List Char), ':' ∉ l →
    splitColonChars l = [l] := by
  intro l
  induction l with
  | nil => intro _; rfl
  | cons c r ih =>
    intro h
    rw [List.mem_cons, not_or] at h
    rw [splitColonChars, if_neg (fun he => h.1 he.symm), ih h.2]

theorem splitColon_append : ∀ (l r : List Char), ':' ∉ l →
    splitColonChars (l ++ ':' :: r) = l :: splitColonChars r := by
  intro l
  induction l with
  | nil =>
    intro r _
    show splitColonChars (':' :: r) = [] :: splitColonChars r
    rw [splitColonChars, if_pos rfl]
  | cons c l' ih =>
    intro r h
    rw [List.mem_cons, not_or] at h
    show splitColonChars (c :: (l' ++ ':' :: r)) = _
    rw [splitColonChars, if_neg (fun he => h.1 he.symm), ih r h.2]

theorem joinColon_cons_cons (t t' : List Char) (ts : List (List Char)) :
    joinColon (t :: t' :: ts) = t ++ ':' :: joinColon (t' :: ts) := rfl

theorem splitColon_joinColon : ∀ (ts : List (List Char)), ts ≠ [] →
    (∀ t ∈ ts, t ≠ [] ∧ ':' ∉ t) →
    splitColonChars (joinColon ts) = ts := by
  intro ts
  induction ts with
  | nil => intro hne _; exact absurd rfl hne
  | cons t ts' ih =>
    intro _ h
    cases ts' with
    | nil =>
      show splitColonChars t = [t]
      exact splitColon_no_colon t (h t (List.mem_cons_self _ _)).2
    | cons t'' ts'' =>
      rw [joinColon_cons_cons,
        splitColon_append t _ (h t (List.mem_cons_self _ _)).2,
        ih (List.cons_ne_nil _ _)
          (fun x hx => h x (List.mem_cons_of_mem _ hx))]

theorem joinColon_cons_ne_nil (t : List Char) (ts : List (List Char))
    (ht : t ≠ []) : joinColon (t :: ts) ≠ [] := by
  cases ts with
  | nil => exact ht
  | cons t' ts' =>
    rw [joinColon_cons_cons]
    intro hc
    rcases List.append_eq_nil.mp hc with ⟨_, h2⟩
    exact List.noConfusion h2

theorem joinColon_head : ∀ (c : Char) (tc : List Char)
    (ts : List (List Char)),
    ∃ J, joinColon ((c :: tc) :: ts) = c :: J := by
  intro c tc ts
  cases ts with
  | nil => exact ⟨tc, rfl⟩
  | cons t' ts' => exact ⟨tc ++ ':' :: joinColon (t' :: ts'), rfl⟩

theorem noDC_append_of : ∀ (t rest : List Char), ':' ∉ t →
    noDC rest = true → noDC (t ++ rest) = true := by
  intro t
  induction t with
  | nil => intro rest _ h; exact h
  | cons c t' ih =>
    intro rest h hrest
    rw [List.mem_cons, not_or] at h
    have hc : ¬c = ':' := fun he => h.1 he.symm
    rcases h2 : t' ++ rest with _ | ⟨b, r'⟩
    · show noDC (c :: (t' ++ rest)) = true
      rw [h2]
      rfl
    · show noDC (c :: (t' ++ rest)) = true
      rw [h2]
      show (!(decide (c = ':') && decide (b = ':')) && noDC (b :: r')) = true
      rw [show decide (c = ':') = false by simp [hc], Bool.false_and,
        Bool.not_false, Bool.true_and, ← h2]
      exact ih rest h.2 hrest

theorem noDC_append_left : ∀ (l r : List Char),
    noDC (l ++ r) = true → noDC l = true := by
  intro l
  induction l with
  | nil => intro r _; rfl
  | cons a l' ih =>
    intro r h
    cases l' with
    | nil => rfl
    | cons b l'' =>
      show (!(decide (a = ':') && decide (b = ':')) && noDC (b :: l'')) = true
      have h' : (!(decide (a = ':') && decide (b = ':')) &&
          noDC (b :: (l'' ++ r))) = true := h
      rw [Bool.and_eq_true] at h'
      rw [Bool.and_eq_true]
      exact ⟨h'.1, ih r h'.2⟩

theorem joinColon_noDC_colon : ∀ (ts : List (List Char)),
    (∀ t ∈ ts, t ≠ [] ∧ ':' ∉ t) →
    noDC (joinColon ts ++ [':']) = true := by
  intro ts
  induction ts with
  | nil => intro _; rfl
  | cons t ts' ih =>
    intro h
    obtain ⟨htne, htcf⟩ := h t (List.mem_cons_self _ _)
    cases ts' with
    | nil =>
      show noDC (t ++ [':']) = true
      exact noDC_append_of t [':'] htcf rfl
    | cons t'' ts'' =>
      rw [joinColon_cons_cons, List.append_assoc]
      refine noDC_append_of t _ htcf ?_
      obtain ⟨htne'', htcf''⟩ := h t'' (List.mem_cons_of_mem _
        (List.mem_cons_self _ _))
      rcases t'' with _ | ⟨c, tc⟩
      · exact absurd rfl htne''
      obtain ⟨J, hJ⟩ := joinColon_head c tc ts''
      have hcne : ¬c = ':' := by
        intro he
        exact htcf'' (he ▸ List.mem_cons_self _ _)
      show noDC (':' :: (joinColon ((c :: tc) :: ts'') ++ [':'])) = true
      rw [hJ]
      show (!(decide (':' = ':') && decide (c = ':')) &&
        noDC (c :: (J ++ [':']))) = true
      rw [show decide (c = ':') = false by simp [hcne], Bool.and_false,
        Bool.not_false, Bool.true_and]
      have := ih (fun x hx => h x (List.mem_cons_of_mem _ hx))
      rw [hJ] at this
      exact this

theorem splitDC_none : ∀ (l : List Char), noDC l = true →
    splitDC l = Option.none := by
  intro l
  induction l with
  | nil => intro _; rfl
  | cons a l' ih =>
    intro h
    cases l' with
    | nil => rfl
    | cons b r =>
      have h' : (!(decide (a = ':') && decide (b = ':')) &&
          noDC (b :: r)) = true := h
      rw [Bool.and_eq_true] at h'
      have hne : ¬(a = ':' ∧ b = ':') := by
        intro ⟨ha, hb⟩
        rw [ha, hb] at h'
        simp at h'
      show (if a = ':' ∧ b = ':' then some ([], r)
        else (splitDC (b :: r)).map (fun p => (a :: p.1, p.2))) = Option.none
      rw [if_neg hne, ih h'.2]
      rfl

theorem splitDC_append : ∀ (l r : List Char), noDC (l ++ [':']) = true →
    splitDC (l ++ ':' :: ':' :: r) = some (l, r) := by
  intro l
  induction l with
  | nil =>
    intro r _
    show (if ':' = ':' ∧ ':' = ':' then some (([] : List Char), r)
      else (splitDC (':' :: r)).map (fun p => (':' :: p.1, p.2))) = _
    rw [if_pos ⟨rfl, rfl⟩]
  | cons a l' ih =>
    intro r h
    cases l' with
    | nil =>
      have h' : (!(decide (a = ':') && decide (':' = ':')) &&
          noDC [':']) = true := h
      rw [Bool.and_eq_true] at h'
      have ha : ¬a = ':' := by
        intro he
        rw [he] at h'
        simp at h'
      show (if a = ':' ∧ ':' = ':' then some (([] : List Char), ':' :: r)
        else (splitDC (':' :: ':' :: r)).map
          (fun p => (a :: p.1, p.2))) = _
      rw [if_neg (fun hand => ha hand.1)]
      rw [show splitDC (':' :: ':' :: r) = some (([] : List Char), r) from by
        show (if ':' = ':' ∧ ':' = ':' then some (([] : List Char), r)
          else (splitDC (':' :: r)).map (fun p => (':' :: p.1, p.2))) = _
        rw [if_pos ⟨rfl, rfl⟩]]
      rfl
    | cons b l'' =>
      have h' : (!(decide (a = ':') && decide (b = ':')) &&
          noDC ((b :: l'') ++ [':'])) = true := h
      rw [Bool.and_eq_true] at h'
      have hne : ¬(a = ':' ∧ b = ':') := by
        intro ⟨ha, hb⟩
        rw [ha, hb] at h'
        simp at h'
      show (if a = ':' ∧ b = ':' then some (([] : List Char), l'' ++ ':' :: ':' :: r)
        else (splitDC ((b :: l'') ++ ':' :: ':' :: r)).map
          (fun p => (a :: p.1, p.2))) = _
      rw [if_neg hne, ih r h'.2]
      rfl

end Nova

namespace Nova

theorem runLen_zero_cons (r : List Nat) : runLen (0 :: r) = runLen r + 1 := rfl

theorem runLen_le_length : ∀ (l : List Nat), runLen l ≤ l.length := by
  intro l
  induction l with
  | nil => exact Nat.le_refl 0
  | cons a r ih =>
    cases a with
    | zero =>
      rw [runLen_zero_cons, List.length_cons]
      exact Nat.succ_le_succ ih
    | succ k =>
      show (0 : Nat) ≤ _
      exact Nat.zero_le _

theorem runLen_take : ∀ (k : Nat) (l : List Nat), k ≤ runLen l →
    l.take k = List.replicate k 0 := by
  intro k
  induction k with
  | zero => intro l _; rfl
  | succ k' ih =>
    intro l h
    cases l with
    | nil => exact absurd h (by simp [runLen])
    | cons a r =>
      cases a with
      | succ m => exact absurd h (by simp [runLen])
      | zero =>
        rw [runLen_zero_cons] at h
        rw [List.take_cons, List.replicate_succ]
        simp only [Nat.add_sub_cancel]
        rw [ih r (by omega)]
        omega

theorem bzr_foldl_spec (gs : List Nat) :
    ∀ (xs : List Nat) (acc : Nat × Nat),
      (xs.foldl (fun best i =>
        if best.2 < runLen (gs.drop i) then (i, runLen (gs.drop i)) else best)
        acc) = acc ∨
      ∃ i ∈ xs, (xs.foldl (fun best i =>
        if best.2 < runLen (gs.drop i) then (i, runLen (gs.drop i)) else best)
        acc) = (i, runLen (gs.drop i)) := by
  intro xs
  induction xs with
  | nil => intro acc; exact Or.inl rfl
  | cons x xs' ih =>
    intro acc
    rw [List.foldl_cons]
    rcases ih (if acc.2 < runLen (gs.drop x) then (x, runLen (gs.drop x))
        else acc) with h | ⟨i, hmem, h⟩
    · by_cases hc : acc.2 < runLen (gs.drop x)
      · right
        refine ⟨x, List.mem_cons_self _ _, ?_⟩
        rw [h, if_pos hc]
      · left
        rw [h, if_neg hc]
    · right
      exact ⟨i, List.mem_cons_of_mem _ hmem, h⟩

theorem bestZeroRun_cases (gs : List Nat) :
    bestZeroRun gs = (0, 0) ∨
      ∃ i, i < gs.length ∧ bestZeroRun gs = (i, runLen (gs.drop i)) := by
  rcases bzr_foldl_spec gs (List.range gs.length) (0, 0) with h | ⟨i, hmem, h⟩
  · exact Or.inl h
  · exact Or.inr ⟨i, List.mem_range.mp hmem, h⟩

theorem readGroups_map_hexChars : ∀ (gs : List Nat),
    (∀ g ∈ gs, g < 65536) →
    readGroups (gs.map hexChars) = some gs := by
  intro gs
  induction gs with
  | nil => intro _; rfl
  | cons g gs' ih =>
    intro h
    have hg : g < 65536 := h g (List.mem_cons_self _ _)
    rw [List.map_cons]
    show (match readHex (hexChars g), readGroups (gs'.map hexChars) with
      | some g, some gs =>
        if g < 65536 then some (g :: gs) else Option.none
      | _, _ => Option.none) = some (g :: gs')
    rw [readHex_hexChars g hg, ih (fun x hx => h x (List.mem_cons_of_mem _ hx))]
    show (if g < 65536 then some (g :: gs') else Option.none) = some (g :: gs')
    rw [if_pos hg]

theorem readGroups_sideTokens_join (gs : List Nat)
    (h : ∀ g ∈ gs, g < 65536) :
    readGroups (sideTokens (joinColon (gs.map hexChars))) = some gs := by
  cases gs with
  | nil => rfl
  | cons g gs' =>
    have hne : joinColon ((g :: gs').map hexChars) ≠ [] := by
      rw [List.map_cons]
      exact joinColon_cons_ne_nil _ _ (hexChars_ne_nil g)
    have hie : (joinColon ((g :: gs').map hexChars)).isEmpty = false := by
      cases hj : joinColon ((g :: gs').map hexChars) with
      | nil => exact absurd hj hne
      | cons a l => rfl
    rw [sideTokens, hie]
    show readGroups (splitColonChars (joinColon ((g :: gs').map hexChars))) = _
    rw [splitColon_joinColon ((g :: gs').map hexChars)
      (by rw [List.map_cons]; exact List.cons_ne_nil _ _)
      (by
        intro t ht
        obtain ⟨x, hx, rfl⟩ := List.mem_map.mp ht
        exact ⟨hexChars_ne_nil x, colon_not_mem_hexChars x (h x hx)⟩)]
    exact readGroups_map_hexChars (g :: gs') h

end Nova

namespace Nova

theorem parse6_joinColon (gs : List Nat) (hlen : gs.length = 8)
    (hb : ∀ g ∈ gs, g < 65536) :
    parse6 (joinColon (gs.map hexChars)) = some gs := by
  have htok : ∀ t ∈ gs.map hexChars, t ≠ [] ∧ ':' ∉ t := by
    intro t ht
    obtain ⟨x, hx, rfl⟩ := List.mem_map.mp ht
    exact ⟨hexChars_ne_nil x, colon_not_mem_hexChars x (hb x hx)⟩
  have hmapne : gs.map hexChars ≠ [] := by
    cases gs with
    | nil => exact absurd hlen (by decide)
    | cons g gs' => exact List.cons_ne_nil _ _
  have hnodc : noDC (joinColon (gs.map hexChars)) = true :=
    noDC_append_left _ [':'] (joinColon_noDC_colon _ htok)
  have hdc : splitDC (joinColon (gs.map hexChars)) = Option.none :=
    splitDC_none _ hnodc
  unfold parse6
  rw [hdc]
  show (match readGroups (splitColonChars (joinColon (gs.map hexChars))) with
    | some gs0 => if gs0.length = 8 then some gs0 else Option.none
    | Option.none => Option.none) = some gs
  rw [splitColon_joinColon (gs.map hexChars) hmapne htok,
    readGroups_map_hexChars gs hb]
  show (if gs.length = 8 then some gs else Option.none) = some gs
  rw [if_pos hlen]

theorem parse6_format6 (gs : List Nat) (hlen : gs.length = 8)
    (hb : ∀ g ∈ gs, g < 65536) :
    parse6 (format6Chars gs) = some gs := by
  by_cases hc : 2 ≤ (bestZeroRun gs).2
  · rcases bestZeroRun_cases gs with heq | ⟨i, hi, heq⟩
    · rw [heq] at hc
      exact absurd hc (by decide)
    · rw [hlen] at hi
      have hl2 : 2 ≤ runLen (gs.drop i) := by
        rw [heq] at hc
        exact hc
      have hil : i + runLen (gs.drop i) ≤ 8 := by
        have h1 := runLen_le_length (gs.drop i)
        rw [List.length_drop, hlen] at h1
        omega
      have hfmt : format6Chars gs =
          joinColon ((gs.take i).map hexChars) ++ ':' :: ':' ::
            joinColon ((gs.drop (i + runLen (gs.drop i))).map hexChars) := by
        unfold format6Chars
        rw [heq]
        show (if 2 ≤ runLen (gs.drop i) then _ else _) = _
        rw [if_pos hl2]
      have htokL : ∀ t ∈ (gs.take i).map hexChars, t ≠ [] ∧ ':' ∉ t := by
        intro t ht
        obtain ⟨x, hx, rfl⟩ := List.mem_map.mp ht
        exact ⟨hexChars_ne_nil x,
          colon_not_mem_hexChars x (hb x (List.take_subset i gs hx))⟩
      have hdc : splitDC (joinColon ((gs.take i).map hexChars) ++ ':' :: ':' ::
          joinColon ((gs.drop (i + runLen (gs.drop i))).map hexChars)) =
          some (joinColon ((gs.take i).map hexChars),
            joinColon ((gs.drop (i + runLen (gs.drop i))).map hexChars)) :=
        splitDC_append _ _ (joinColon_noDC_colon _ htokL)
      unfold parse6
      rw [hfmt, hdc]
      show (match readGroups (sideTokens (joinColon ((gs.take i).map
          hexChars))),
          readGroups (sideTokens (joinColon
            ((gs.drop (i + runLen (gs.drop i))).map hexChars))) with
        | some L, some R =>
          if L.length + R.length < 8 then
            some (L ++ List.replicate (8 - L.length - R.length) 0 ++ R)
          else Option.none
        | _, _ => Option.none) = some gs
      rw [readGroups_sideTokens_join (gs.take i)
          (fun x hx => hb x (List.take_subset i gs hx)),
        readGroups_sideTokens_join (gs.drop (i + runLen (gs.drop i)))
          (fun x hx => hb x (List.drop_subset _ gs hx))]
      show (if (gs.take i).length +
          (gs.drop (i + runLen (gs.drop i))).length < 8 then
        some (gs.take i ++ List.replicate (8 - (gs.take i).length -
          (gs.drop (i + runLen (gs.drop i))).length) 0 ++
          gs.drop (i + runLen (gs.drop i)))
        else Option.none) = some gs
      have hlt : (gs.take i).length = i := by
        rw [List.length_take, hlen]
        exact Nat.min_eq_left (by omega)
      have hld : (gs.drop (i + runLen (gs.drop i))).length =
          8 - (i + runLen (gs.drop i)) := by
        rw [List.length_drop, hlen]
      rw [hlt, hld, if_pos (by omega)]
      have hcnt : 8 - i - (8 - (i + runLen (gs.drop i))) =
          runLen (gs.drop i) := by omega
      rw [hcnt]
      have hmid : List.replicate (runLen (gs.drop i)) 0 =
          (gs.drop i).take (runLen (gs.drop i)) :=
        (runLen_take (runLen (gs.drop i)) (gs.drop i)
          (Nat.le_refl _)).symm
      have hdrop : gs.drop (i + runLen (gs.drop i)) =
          (gs.drop i).drop (runLen (gs.drop i)) := by
        rw [List.drop_drop]
      rw [hmid, hdrop, List.append_assoc, List.take_append_drop,
        List.take_append_drop]
  · have hfmt : format6Chars gs = joinColon (gs.map hexChars) := by
      unfold format6Chars
      rw [if_neg hc]
    rw [hfmt]
    exact parse6_joinColon gs hlen hb

end Nova

namespace Nova

/-- C6 (amended): `fromPrimitive(toPrimitive(v)) == v` holds for every value
`coerce` accepts of the string, integer, boolean, list and dict field types
(identity serializers), for the date-time field type on coerced (UTC-aware)
values whose sub-second part is zero, and for the IP-address field type of
either version on every structurally valid address of that version — but
not, as `C6_roundtrip_counterexample` shows, for date-time values carrying
sub-second precision, which `isotime` drops. -/
theorem C6_serialization_roundtrip :
    (∀ (nb : Bool) (attr : String) (v : PyVal),
      isOkE ((fields.StringField nb).coerce attr v) = true →
      ((fields.StringField nb).to_primitive attr v).bind
        ((fields.StringField nb).from_primitive attr) = .ok v) ∧
    (∀ (nb : Bool) (attr : String) (v : PyVal),
      isOkE ((fields.IntegerField nb).coerce attr v) = true →
      ((fields.IntegerField nb).to_primitive attr v).bind
        ((fields.IntegerField nb).from_primitive attr) = .ok v) ∧
    (∀ (nb : Bool) (attr : String) (v : PyVal),
      isOkE ((fields.BooleanField nb).coerce attr v) = true →
      ((fields.BooleanField nb).to_primitive attr v).bind
        ((fields.BooleanField nb).from_primitive attr) = .ok v) ∧
    (∀ (elementOk : PyVal → Bool) (nb : Bool) (attr : String) (v : PyVal),
      isOkE ((fields.ListField elementOk nb).coerce attr v) = true →
      ((fields.ListField elementOk nb).to_primitive attr v).bind
        ((fields.ListField elementOk nb).from_primitive attr) = .ok v) ∧
    (∀ (elementOk : PyVal → Bool) (nb : Bool) (attr : String) (v : PyVal),
      isOkE ((fields.DictField elementOk nb).coerce attr v) = true →
      ((fields.DictField elementOk nb).to_primitive attr v).bind
        ((fields.DictField elementOk nb).from_primitive attr) = .ok v) ∧
    (∀ (nb : Bool) (attr : String) (d : PyDateTime),
      wfDT d = true → d.microsecond = 0 → d.tz = some 0 →
      ((fields.DateTimeField nb).to_primitive attr (.dt d)).bind
        ((fields.DateTimeField nb).from_primitive attr) = .ok (.dt d)) ∧
    (∀ (version : Nat) (nb : Bool) (attr : String) (a : IPAddr),
      wfIP a = true → a.version = version →
      ((fields.IPAddressField version nb).to_primitive attr (.ip a)).bind
        ((fields.IPAddressField version nb).from_primitive attr) =
        .ok (.ip a)) := by
  refine ⟨?_, ?_, ?_, ?_, ?_, ?_, ?_⟩
  · intro nb attr v hok
    exact identity_serializers_roundtrip (fields.StringField nb) attr v
      rfl rfl hok
  · intro nb attr v hok
    exact identity_serializers_roundtrip (fields.IntegerField nb) attr v
      rfl rfl hok
  · intro nb attr v hok
    exact identity_serializers_roundtrip (fields.BooleanField nb) attr v
      rfl rfl hok
  · intro elementOk nb attr v hok
    exact identity_serializers_roundtrip (fields.ListField elementOk nb)
      attr v rfl rfl hok
  · intro elementOk nb attr v hok
    exact identity_serializers_roundtrip (fields.DictField elementOk nb)
      attr v rfl rfl hok
  · intro nb attr d hw hmu htz
    have hp := parse_isotime_isotime d hw hmu htz
    simp [fields.Field.to_primitive, fields.Field.from_primitive,
      fields.enforce_nullable, fields.DateTimeField, fields.dtToPrim,
      fields.dtFromPrim, Except.bind, Except.map, hp]
  · intro version nb attr a hw hv
    cases a with
    | v4 o1 o2 o3 o4 =>
      simp only [IPAddr.version] at hv
      subst hv
      have hp := parseIPv4_formatIP o1 o2 o3 o4 hw
      simp [fields.Field.to_primitive, fields.Field.from_primitive,
        fields.enforce_nullable, fields.IPAddressField, netaddrIPAddress,
        formatIP, Except.bind, hp]
    | v6 gs =>
      simp only [IPAddr.version] at hv
      subst hv
      simp only [wfIP, Bool.and_eq_true, List.all_eq_true,
        decide_eq_true_eq] at hw
      have hp := parse6_format6 gs hw.1 hw.2
      simp [fields.Field.to_primitive, fields.Field.from_primitive,
        fields.enforce_nullable, fields.IPAddressField, netaddrIPAddress,
        formatIP, formatIPChars, Except.bind, hp]

end Nova

namespace Nova

/-- C6 witness: concrete round-trips for an integer, a list, a dict, a
sub-second-free UTC datetime, a version-4 address and the version-6 address
`::1` (whose wire form is the compact `"::1"` the repository's
`test_ip_hydration` expects). -/
theorem C6_roundtrip_witness :
    ((fields.IntegerField false).to_primitive "count" (.int 7)).bind
      ((fields.IntegerField false).from_primitive "count") = .ok (.int 7) ∧
    ((fields.ListField (fun _ => true) false).to_primitive "tags"
        (.list [.str "a", .str "b"])).bind
      ((fields.ListField (fun _ => true) false).from_primitive "tags") =
      .ok (.list [.str "a", .str "b"]) ∧
    ((fields.DictField (fun _ => true) false).to_primitive "metadata"
        (.dict [("k", .str "v")])).bind
      ((fields.DictField (fun _ => true) false).from_primitive "metadata") =
      .ok (.dict [("k", .str "v")]) ∧
    ((fields.DateTimeField false).to_primitive "launched_at"
        (.dt ⟨1955, 11, 5, 0, 0, 0, 0, some 0⟩)).bind
      ((fields.DateTimeField false).from_primitive "launched_at") =
      .ok (.dt ⟨1955, 11, 5, 0, 0, 0, 0, some 0⟩) ∧
    ((fields.IPAddressField 4 false).to_primitive "ip"
        (.ip (.v4 1 2 3 4))).bind
      ((fields.IPAddressField 4 false).from_primitive "ip") =
      .ok (.ip (.v4 1 2 3 4)) ∧
    ((fields.IPAddressField 6 false).to_primitive "ip6"
        (.ip (.v6 [0, 0, 0, 0, 0, 0, 0, 1]))).bind
      ((fields.IPAddressField 6 false).from_primitive "ip6") =
      .ok (.ip (.v6 [0, 0, 0, 0, 0, 0, 0, 1])) ∧
    formatIP (.v6 [0, 0, 0, 0, 0, 0, 0, 1]) = "::1" := by
  obtain ⟨-, hi, -, hl, hd, hdt, hip⟩ := C6_serialization_roundtrip
  refine ⟨?_, ?_, ?_, ?_, ?_, ?_, ?_⟩
  · exact hi false "count" (.int 7) rfl
  · exact hl (fun _ => true) false "tags" (.list [.str "a", .str "b"]) rfl
  · exact hd (fun _ => true) false "metadata" (.dict [("k", .str "v")]) rfl
  · exact hdt false "launched_at" ⟨1955, 11, 5, 0, 0, 0, 0, some 0⟩
      (by decide) rfl rfl
  · exact hip 4 false "ip" (.v4 1 2 3 4) (by decide) rfl
  · exact hip 6 false "ip6" (.v6 [0, 0, 0, 0, 0, 0, 0, 1]) (by decide) rfl
  · rfl

end Nova
